import Mathlib

/-!
A verification development for the graph compilation engine in `src/graph.rs`
(the HeteroG form-transition engine).  The Rust source is shallowly embedded:

* protobuf messages (`NodeDef`, `AttrValue`, …) become plain structures;
* `String` concatenation and `usize → String` formatting are modelled with
  Lean `String`s and an executable decimal printer `natStr`;
* the mutable `Target` sink and the per-tensor form caches become values that
  are threaded through the functions;
* Rust panics (failed `assert!`, `unwrap`, missing map keys, out-of-range
  indexing that the claims talk about) are modelled by `Option`, `none`
  standing for a panic;
* the `as_form` / transition-builder recursion is bounded by an explicit
  fuel parameter (the actual recursion depth of the source is at most 2,
  so any fuel ≥ 3 is enough everywhere below); all functions are
  structurally recursive and hence fully executable by the kernel.

Machine integers: `usize`/`u64` values are modelled as `Nat`; the one place
where the source narrows a `u64` into an `i64` (`set_input_size`'s
`size as _`) is modelled with an explicit two's-complement wrap `i64ofU64`.
-/

/-! ## Decimal printing and parsing (Rust `usize::to_string` / `str::parse`) -/

/-- The character for a single decimal digit (`d < 10`). -/
def digitChar : Nat → Char
  | 0 => '0' | 1 => '1' | 2 => '2' | 3 => '3' | 4 => '4'
  | 5 => '5' | 6 => '6' | 7 => '7' | 8 => '8' | 9 => '9'
  | _ => '?'

/-- Is the character an ASCII decimal digit? -/
def isDigCh (c : Char) : Bool := 48 ≤ c.toNat && c.toNat ≤ 57

/-- Numeric value of an ASCII digit character. -/
def charVal (c : Char) : Nat := c.toNat - 48

/-- Fueled most-significant-first decimal digit printer. -/
def natDigitsAux : Nat → Nat → List Char → List Char
  | 0, _, acc => acc
  | f + 1, n, acc =>
    if n < 10 then digitChar n :: acc
    else natDigitsAux f (n / 10) (digitChar (n % 10) :: acc)

/-- Decimal digits of `n`, most significant first (`usize::to_string`). -/
def natDigits (n : Nat) : List Char := natDigitsAux (n + 1) n []

/-- Decimal string of `n` (Rust `format!` of a `usize`). -/
def natStr (n : Nat) : String := ⟨natDigits n⟩

/-- Value of a digit list read as a decimal numeral. -/
def digitsVal (l : List Char) : Nat := l.foldl (fun a c => a * 10 + charVal c) 0

/-- Rust `str::parse::<usize>()` on the canonical decimal forms the engine
produces: succeeds exactly on non-empty all-digit strings. -/
def parseNat (l : List Char) : Option Nat :=
  if l.isEmpty then none
  else if l.all isDigCh then some (digitsVal l) else none

/-- Rust `str::split(c)`: always returns at least one (possibly empty) segment. -/
def splitOnChar (c : Char) : List Char → List (List Char)
  | [] => [[]]
  | a :: rest =>
    if a = c then [] :: splitOnChar c rest
    else
      match splitOnChar c rest with
      | [] => [[a]]
      | s :: ss => (a :: s) :: ss

/-! ## Protobuf data model (`NodeDef`, `AttrValue`, tensor protos) -/

/-- The data-type enum values the engine mentions. -/
inductive DataType where
  | DT_INT32
  | DT_BOOL
  | DT_FLOAT
deriving DecidableEq

/-- `TensorShapeProto`: a list of dimension sizes (signed; `-1` = unknown). -/
structure TensorShapeProto where
  dim : List Int
deriving DecidableEq

/-- `TensorProto`: only the fields the engine writes. -/
structure TensorProto where
  dtype : DataType
  tensor_shape : Option TensorShapeProto
  int_val : List Int
deriving DecidableEq

/-- The `list` payload of an `AttrValue`: only the fields the engine touches. -/
structure AttrList where
  i : List Int
  shape : List TensorShapeProto
deriving DecidableEq

/-- An attribute value (the protobuf oneof, restricted to used variants). -/
inductive AttrValue where
  | i (n : Int)
  | s (v : String)
  | type (t : DataType)
  | tensor (t : TensorProto)
  | list (l : AttrList)
  | empty
deriving DecidableEq

/-- Protobuf `get_list()`: the list variant, or the default empty list. -/
def AttrValue.getList : AttrValue → AttrList
  | .list l => l
  | _ => ⟨[], []⟩

/-- A TensorFlow `NodeDef`. -/
structure NodeDef where
  name : String
  op : String
  input : List String
  device : String
  attr : List (String × AttrValue)
deriving DecidableEq

/-- Map insertion for the attribute map (replaces an existing key). -/
def attrInsert (l : List (String × AttrValue)) (k : String) (v : AttrValue) :
    List (String × AttrValue) :=
  match l with
  | [] => [(k, v)]
  | (k', v') :: rest => if k' = k then (k, v) :: rest else (k', v') :: attrInsert rest k v

/-- Attribute lookup (`node.attr.get(k)`). -/
def getAttr (nd : NodeDef) (k : String) : Option AttrValue :=
  (nd.attr.find? (fun p => p.1 = k)).map (·.2)

/-- Two's-complement narrowing of a `u64`-sized `Nat` into an `i64`
(the `size as _` cast inside `set_input_size`). -/
def i64ofU64 (n : Nat) : Int :=
  if n % 2 ^ 64 < 2 ^ 63 then ((n % 2 ^ 64 : Nat) : Int)
  else ((n % 2 ^ 64 : Nat) : Int) - 2 ^ 64

/-- `fn set_input_size(node, index, size)`: grow the `_tge_input_sizes`
int-list with zeros up to `index` and store `size` there. -/
def set_input_size (nd : NodeDef) (index : Nat) (size : Nat) : NodeDef :=
  let cur := (getAttr nd "_tge_input_sizes").getD AttrValue.empty
  let l := cur.getList
  let sizes :=
    if l.i.length ≤ index then l.i ++ List.replicate (index + 1 - l.i.length) 0 else l.i
  let sizes := sizes.set index (i64ofU64 size)
  { nd with attr := attrInsert nd.attr "_tge_input_sizes" (.list { l with i := sizes }) }

/-- `fn set_origin`. -/
def set_origin (nd : NodeDef) (origin : String) : NodeDef :=
  { nd with attr := attrInsert nd.attr "_tge_origin" (.s origin) }

/-- `fn set_belong_to`. -/
def set_belong_to (nd : NodeDef) (b : String) : NodeDef :=
  { nd with attr := attrInsert nd.attr "_tge_belong_to" (.s b) }

/-- `fn set_form`. -/
def set_form (nd : NodeDef) (form_code : String) : NodeDef :=
  { nd with attr := attrInsert nd.attr "_tge_form" (.s form_code) }

/-- `fn get_dtype(x)`: dtype inference for auxiliary nodes; `none` models the
`panic!("cannot determine dtype")` / missing-`DstT` unwrap. -/
def get_dtype (x : NodeDef) : Option AttrValue :=
  if x.op = "Greater" ∨ x.op = "GreaterEqual" then some (.type .DT_BOOL)
  else if x.op = "Shape" ∨ x.op = "ShapeN" then
    some ((getAttr x "out_type").getD (.type .DT_INT32))
  else if x.op = "Cast" then getAttr x "DstT"
  else
    match getAttr x "dtype" with
    | some v => some v
    | none => getAttr x "T"

/-- `fn parse_input(x)`: split off a trailing `:k` output-port suffix.
The port is `none` when the text after the first `:` fails to parse
(a panic in the source). -/
def parse_input (x : List Char) : List Char × Option Nat :=
  let pre := x.takeWhile (fun c => c ≠ ':')
  if pre.length = x.length then (x, some 0)
  else (pre, parseNat (x.drop (pre.length + 1)))

/-! ## Form algebra -/

/-- `enum FormKind { Full, Part }`. -/
inductive FormKind where
  | Full
  | Part
deriving DecidableEq

/-- `struct Form { kind, devices }`. -/
structure Form where
  kind : FormKind
  devices : List Nat
deriving DecidableEq

/-- `Form::is_full`. -/
def Form.is_full (f : Form) : Bool := f.kind == FormKind.Full

/-- `Form::is_part`. -/
def Form.is_part (f : Form) : Bool := f.kind == FormKind.Part

/-- `Form::ndev`. -/
def Form.ndev (f : Form) : Nat := f.devices.length

/-- `Form::code`: serialize to `"full"`/`"part"` followed by `_<dev>` repeated. -/
def Form.code (f : Form) : String :=
  f.devices.foldl (fun x d => x ++ "_" ++ natStr d)
    (if f.is_full then "full" else "part")

/-- `Form::from_code`: parse a form code; `none` models the `unreachable!()`
on an unknown kind and the `unwrap()` on a failing device-number parse. -/
def Form.from_code (code : String) : Option Form :=
  match splitOnChar '_' code.data with
  | [] => none
  | kind :: rest =>
    let k? : Option FormKind :=
      if kind = "full".data then some FormKind.Full
      else if kind = "part".data then some FormKind.Part
      else none
    match k? with
    | none => none
    | some k => (rest.mapM parseNat).map (fun ds => { kind := k, devices := ds })

/-- `Form::valid`. -/
def Form.valid (f : Form) : Bool := !f.devices.isEmpty

/-! ## Target -/

/-- `struct Target`: the output sink (the growing `GraphDef` plus the device
table, link bandwidths and routing paths). -/
structure Target where
  nodes : List NodeDef
  devices : List String
  links : List Nat
  paths : List (List Nat)
deriving DecidableEq

/-! ## Graph ingestion (`Graph::new`, `Node::new`) -/

/-- The key that `Graph::new` checks against `name_dict` for one input
reference: strip a leading `^`, otherwise strip a `:k` port suffix. -/
def inputKey (s : String) : String :=
  if s.data.head? = some '^' then ⟨s.data.drop 1⟩
  else ⟨s.data.takeWhile (fun c => c ≠ ':')⟩

/-- A built node (`struct Node`, restricted to the build-time fields;
`outputs` and `form` start empty and are populated later). -/
structure BNode where
  raw : NodeDef
  controls : List Nat
  inputs : List (Nat × Nat × FormKind)
deriving DecidableEq

/-- Lookup in the `name_dict` association list. -/
def dictFind (dict : List (String × Nat)) (k : String) : Option Nat :=
  (dict.find? (fun p => p.1 = k)).map (·.2)

/-- `name_dict.contains_key`. -/
def dictHas (dict : List (String × Nat)) (k : String) : Bool :=
  (dictFind dict k).isSome

/-- The input-resolution loop of `Node::new`: classify each input reference
as a control (`^name`) or a data input (`name[:k]`), resolving producer
names through `name_dict`.  `none` models a panic (missing name or
unparsable port). -/
def collectRefs (dict : List (String × Nat)) :
    List String → Option (List Nat × List (Nat × Nat × FormKind))
  | [] => some ([], [])
  | s :: rest =>
    if s.data.head? = some '^' then
      match dictFind dict ⟨s.data.drop 1⟩ with
      | none => none
      | some id => (collectRefs dict rest).map (fun p => (id :: p.1, p.2))
    else
      match parse_input s.data with
      | (nm, some port) =>
        match dictFind dict ⟨nm⟩ with
        | none => none
        | some id => (collectRefs dict rest).map (fun p => (p.1, (id, port, FormKind.Full) :: p.2))
      | (_, none) => none

/-- `Node::new`. -/
def bNodeNew (dict : List (String × Nat)) (raw : NodeDef) : Option BNode :=
  (collectRefs dict raw.input).map (fun p => { raw := raw, controls := p.1, inputs := p.2 })

/-- The loop state of `Graph::new`: admitted nodes, the name map, and the
work queue. -/
structure BuildState where
  nodes : List BNode
  name_dict : List (String × Nat)
  queue : List NodeDef
deriving DecidableEq

/-- The initial state of `Graph::new` on an input slice. -/
def initState (defs : List NodeDef) : BuildState :=
  { nodes := [], name_dict := [], queue := defs }

/-- Is the node at the head of the queue admissible (all of its input keys
already present in `name_dict`)? -/
def readyB (dict : List (String × Nat)) (d : NodeDef) : Bool :=
  d.input.all (fun inp => dictHas dict (inputKey inp))

/-- One iteration of the `'outer` loop of `Graph::new`: pop the front of the
queue; admit it when all of its inputs resolve, otherwise push it back. -/
def buildStep (st : BuildState) : Option BuildState :=
  match st.queue with
  | [] => some st
  | d :: rest =>
    if readyB st.name_dict d then
      match bNodeNew st.name_dict d with
      | none => none
      | some bn =>
        some { nodes := st.nodes ++ [bn],
               name_dict := (d.name, st.nodes.length) :: st.name_dict,
               queue := rest }
    else some { st with queue := rest ++ [d] }

/-- Iterate `buildStep` a fixed number of times. -/
def stepN : Nat → BuildState → Option BuildState
  | 0, st => some st
  | k + 1, st =>
    match buildStep st with
    | none => none
    | some st' => stepN k st'

/-- `Graph::new` with an explicit iteration budget: run the work-queue loop
until the queue is empty.  `none` models both a panic inside `Node::new`
and a loop that has not finished within the budget. -/
def runB : Nat → BuildState → Option (List BNode × List (String × Nat))
  | fuel, st =>
    match st.queue with
    | [] => some (st.nodes, st.name_dict)
    | _ :: _ =>
      match fuel with
      | 0 => none
      | f + 1 =>
        match buildStep st with
        | none => none
        | some st' => runB f st'

/-- The names a node's admission waits for (`inputKey` over all inputs). -/
def depKeys (d : NodeDef) : List String := d.input.map inputKey

/-- The names a node's *data* inputs reference (control `^` references
excluded). -/
def dataDepKeys (d : NodeDef) : List String :=
  (d.input.filter (fun s => s.data.head? ≠ some '^')).map inputKey

/-- Every referenced name occurs in the input list. -/
def ClosedDefs (defs : List NodeDef) : Prop :=
  ∀ d ∈ defs, ∀ k ∈ depKeys d, k ∈ defs.map (·.name)

/-- Every `name:k` input reference has a parseable port. -/
def WFInputs (defs : List NodeDef) : Prop :=
  ∀ d ∈ defs, ∀ s ∈ d.input,
    s.data.head? = some '^' ∨ (parse_input s.data).2.isSome

/-- Acyclicity of the name-level dependency relation over *all* input
references (data and control), stated in its finite minimal-element form:
every non-empty sub-collection of the input has a member none of whose
referenced names belongs to the sub-collection. -/
def AcyclicAll (defs : List NodeDef) : Prop :=
  ∀ S ∈ defs.sublists, S ≠ [] →
    ∃ d ∈ S, ∀ k ∈ depKeys d, k ∉ S.map (·.name)

/-- Acyclicity with respect to the *data* edges only (control `^` references
are ignored), the condition named by the specification. -/
def DataAcyclic (defs : List NodeDef) : Prop :=
  ∀ S ∈ defs.sublists, S ≠ [] →
    ∃ d ∈ S, ∀ k ∈ dataDepKeys d, k ∉ S.map (·.name)

instance : DecidablePred ClosedDefs := fun defs => by
  unfold ClosedDefs; infer_instance

instance : DecidablePred WFInputs := fun defs => by
  unfold WFInputs; infer_instance

instance : DecidablePred AcyclicAll := fun defs => by
  unfold AcyclicAll; infer_instance

instance : DecidablePred DataAcyclic := fun defs => by
  unfold DataAcyclic; infer_instance

/-! ## Tensor model -/

/-- The identity of a tensor: the owning node's raw definition and assigned
form, and the output port.  (The mutable form cache is threaded separately.) -/
structure TensorInfo where
  raw : NodeDef
  nodeForm : Form
  index : Nat
deriving DecidableEq

/-- The `forms: BTreeMap<Form, Box<[String]>>` cache of a tensor. -/
abbrev FormCache := List (Form × List String)

/-- Cache lookup. -/
def lookupForm (c : FormCache) (f : Form) : Option (List String) :=
  (c.find? (fun p => p.1 = f)).map (·.2)

/-- Cache insertion (new binding shadows any old one). -/
def insertForm (c : FormCache) (f : Form) (ns : List String) : FormCache :=
  (f, ns) :: c

/-- `Node::replica(index)`. -/
def replicaStr (name : String) (i : Nat) : String :=
  name ++ "/replica_" ++ natStr i

/-- `Tensor::original_name`. -/
def TensorInfo.original_name (t : TensorInfo) : String :=
  if t.index = 0 then t.raw.name else t.raw.name ++ ":" ++ natStr t.index

/-- `Tensor::get_shape`: read `_output_shapes`; `none` models the panics on a
missing attribute or an out-of-range output port; a negative dimension makes
the whole shape empty. -/
def TensorInfo.get_shape (t : TensorInfo) : Option (List Nat) :=
  match getAttr t.raw "_output_shapes" with
  | none => none
  | some v =>
    match v.getList.shape.get? t.index with
    | none => none
    | some sh => some ((sh.dim.mapM Int.toNat').getD [])

/-- `Tensor::get_size`: product of the dimensions times 4 bytes. -/
def TensorInfo.get_size (t : TensorInfo) : Option Nat :=
  t.get_shape.map (fun l => l.foldl (· * ·) 1 * 4)

/-- `Node::make_node(op)`: a fresh `NodeDef` named after the original node
and tagged `_tge_belong_to`. -/
def make_node (raw : NodeDef) (op : String) : NodeDef :=
  set_belong_to { name := raw.name, op := op, input := [], device := "", attr := [] } raw.name

/-- The scalar int32 `Const` payload (`axis`/`dim` value 0, etc.). -/
def scalarI32 (v : Int) : TensorProto :=
  { dtype := .DT_INT32, tensor_shape := some ⟨[]⟩, int_val := [v] }

/-- The rank-one int32 `[-1]` payload used by the ring flatten step. -/
def flatShapeI32 : TensorProto :=
  { dtype := .DT_INT32, tensor_shape := some ⟨[1]⟩, int_val := [-1] }

/-- The type of the `as_form` callback the builders use (`self.as_form`,
with the tensor identity fixed). -/
abbrev AsFormFn := FormCache → Form → Target → Option (List String × FormCache × Target)

/-- The own-form identity list `"<node>/replica_<i>:<port>"` for `i < ndev`. -/
def ownNames (t : TensorInfo) (form : Form) : List String :=
  (List.range form.ndev).map (fun i => replicaStr t.raw.name i ++ ":" ++ natStr t.index)

/-! ## Form-transition builders

Each Rust builder `f` is split into `f_impl` (the leading `assert!`) and
`f_body` (the code after the assertion), both parameterized by the
`as_form` callback `af`; the fueled wrapper `f` below ties the knot.
Device-table reads (`target.devices[id]`) are modelled with a total lookup
(default `""`): the claims under study only cover the assertion panics. -/

/-- Body of `Tensor::aggregate_sum` (after the assertion). -/
def aggregate_sum_body (af : AsFormFn) (t : TensorInfo) (c : FormCache) (fm toF : Form)
    (tg : Target) : Option (List String × FormCache × Target) :=
  let addn := make_node t.raw "AddN"
  let addn := { addn with
    name := addn.name ++ "/" ++ natStr t.index ++ "_" ++ toF.code ++ "/aux_sum",
    device := tg.devices.getD (toF.devices.getD 0 0) "" }
  let addn := { addn with attr := attrInsert addn.attr "N" (.i fm.ndev) }
  match get_dtype t.raw with
  | none => none
  | some dv =>
    let addn := { addn with attr := attrInsert addn.attr "T" dv }
    match af c fm tg with
    | none => none
    | some (names, c1, tg1) =>
      let addn := { addn with input := names }
      match t.get_size with
      | none => none
      | some sz =>
        let addn := (List.range fm.ndev).foldl
          (fun nd i => set_input_size nd i (sz / fm.ndev)) addn
        some (List.replicate toF.ndev addn.name, c1,
              { tg1 with nodes := tg1.nodes ++ [addn] })

/-- `Tensor::aggregate_sum`. -/
def aggregate_sum_impl (af : AsFormFn) (t : TensorInfo) (c : FormCache) (fm toF : Form)
    (tg : Target) : Option (List String × FormCache × Target) :=
  if fm.valid && toF.valid && fm.is_part && toF.is_full then
    aggregate_sum_body af t c fm toF tg
  else none

/-- Body of `Tensor::aggregate_cat` (after the assertion). -/
def aggregate_cat_body (af : AsFormFn) (t : TensorInfo) (c : FormCache) (fm toF : Form)
    (tg : Target) : Option (List String × FormCache × Target) :=
  let axis := make_node t.raw "Const"
  let axis := { axis with
    name := axis.name ++ "/" ++ natStr t.index ++ "_" ++ toF.code ++ "/aux_concat/axis",
    device := tg.devices.getD (toF.devices.getD 0 0) "" }
  let axis := { axis with attr := attrInsert axis.attr "dtype" (.type .DT_INT32) }
  let axis := { axis with attr := attrInsert axis.attr "value" (.tensor (scalarI32 0)) }
  let concat := make_node t.raw "ConcatV2"
  let concat := { concat with
    name := concat.name ++ "/" ++ natStr t.index ++ "_" ++ toF.code ++ "/aux_concat/concat",
    device := tg.devices.getD (toF.devices.getD 0 0) "" }
  match af c fm tg with
  | none => none
  | some (names, c1, tg1) =>
    let concat := { concat with input := names ++ [axis.name] }
    let concat := { concat with attr := attrInsert concat.attr "N" (.i fm.ndev) }
    match get_dtype t.raw with
    | none => none
    | some dv =>
      let concat := { concat with attr := attrInsert concat.attr "T" dv }
      let concat := { concat with attr := attrInsert concat.attr "Tidx" (.type .DT_INT32) }
      match t.get_size with
      | none => none
      | some sz =>
        let concat := (List.range fm.ndev).foldl
          (fun nd i => set_input_size nd i (sz / fm.ndev)) concat
        some (List.replicate toF.ndev concat.name, c1,
              { tg1 with nodes := tg1.nodes ++ [axis, concat] })

/-- `Tensor::aggregate_cat`. -/
def aggregate_cat_impl (af : AsFormFn) (t : TensorInfo) (c : FormCache) (fm toF : Form)
    (tg : Target) : Option (List String × FormCache × Target) :=
  if fm.valid && toF.valid && fm.is_part && toF.is_full then
    aggregate_cat_body af t c fm toF tg
  else none

/-- Body of `Tensor::replicate_broadcast` (after the assertion).  Note that
the producer list is requested at the *node's own* form. -/
def replicate_broadcast_body (af : AsFormFn) (t : TensorInfo) (c : FormCache) (fm toF : Form)
    (tg : Target) : Option (List String × FormCache × Target) :=
  match af c t.nodeForm tg with
  | none => none
  | some (raw, c1, tg1) =>
    some (toF.devices.map (fun device_id =>
      match fm.devices.findIdx? (fun x => x = device_id) with
      | some ind => raw.getD ind ""
      | none => raw.getD 0 ""), c1, tg1)

/-- `Tensor::replicate_broadcast`. -/
def replicate_broadcast_impl (af : AsFormFn) (t : TensorInfo) (c : FormCache) (fm toF : Form)
    (tg : Target) : Option (List String × FormCache × Target) :=
  if fm.valid && toF.valid && fm.is_full && toF.is_full then
    replicate_broadcast_body af t c fm toF tg
  else none

/-- Body of `Tensor::replicate_split` (after the assertion). -/
def replicate_split_body (af : AsFormFn) (t : TensorInfo) (c : FormCache) (fm toF : Form)
    (tg : Target) : Option (List String × FormCache × Target) :=
  let dim := make_node t.raw "Const"
  let dim := { dim with
    name := dim.name ++ "/" ++ natStr t.index ++ "_" ++ toF.code ++ "/aux_split/dim",
    device := tg.devices.getD (fm.devices.getD 0 0) "" }
  let dim := { dim with attr := attrInsert dim.attr "dtype" (.type .DT_INT32) }
  let dim := { dim with attr := attrInsert dim.attr "value" (.tensor (scalarI32 0)) }
  let split := make_node t.raw "Split"
  let split := { split with
    name := split.name ++ "/" ++ natStr t.index ++ "_" ++ toF.code ++ "/aux_split/split",
    device := tg.devices.getD (fm.devices.getD 0 0) "" }
  match af c fm tg with
  | none => none
  | some (names, c1, tg1) =>
    let split := { split with input := [dim.name, names.getD 0 ""] }
    match get_dtype t.raw with
    | none => none
    | some dv =>
      let split := { split with attr := attrInsert split.attr "T" dv }
      let split := { split with attr := attrInsert split.attr "num_split" (.i toF.ndev) }
      match t.get_size with
      | none => none
      | some sz =>
        let split := set_input_size split 1 sz
        some ((List.range toF.ndev).map (fun i => split.name ++ ":" ++ natStr i), c1,
              { tg1 with nodes := tg1.nodes ++ [dim, split] })

/-- `Tensor::replicate_split`. -/
def replicate_split_impl (af : AsFormFn) (t : TensorInfo) (c : FormCache) (fm toF : Form)
    (tg : Target) : Option (List String × FormCache × Target) :=
  if fm.valid && toF.valid && fm.is_full && toF.is_part then
    replicate_split_body af t c fm toF tg
  else none

/-- The in-source subtraction loop computing the gcd in `Tensor::resplit`,
with enough fuel (`a + b`) for any positive arguments. -/
def subGcdAux : Nat → Nat → Nat → Nat
  | 0, a, _ => a
  | f + 1, a, b =>
    if a = b then a else if a > b then subGcdAux f (a - b) b else subGcdAux f a (b - a)

/-- The gcd of `Tensor::resplit` (number of intermediate concat nodes). -/
def subGcd (a b : Nat) : Nat := subGcdAux (a + b) a b

/-- Rust `slice::chunks(k)`: contiguous chunks of size `k` (last may be
shorter). -/
def chunksAux {α : Type} : Nat → Nat → List α → List (List α)
  | 0, _, _ => []
  | _ + 1, _, [] => []
  | f + 1, k, a :: rest => (a :: rest).take k :: chunksAux f k ((a :: rest).drop k)

/-- `chunks` with the fuel instantiated. -/
def chunksOf {α : Type} (k : Nat) (l : List α) : List (List α) := chunksAux l.length k l

/-- First stage of `Tensor::resplit`: one `Const` axis plus one `ConcatV2`
per chunk of producer replicas; returns `(destination device, concat name)`
pairs. -/
def resplitConcats (t : TensorInfo) (fm toF : Form) (dv : AttrValue) (sz : Nat) :
    Nat → List (List String) → Target → (List (Nat × String) × Target)
  | _, [], tg => ([], tg)
  | i, chunk :: rest, tg =>
    let dest := fm.devices.getD (i * chunk.length) 0
    let axis := make_node t.raw "Const"
    let axis := { axis with
      name := axis.name ++ "/" ++ natStr t.index ++ "_" ++ toF.code ++ "/aux_resplit_" ++
        natStr i ++ "/concat_axis",
      device := tg.devices.getD dest "" }
    let axis := { axis with attr := attrInsert axis.attr "dtype" (.type .DT_INT32) }
    let axis := { axis with attr := attrInsert axis.attr "value" (.tensor (scalarI32 0)) }
    let concat := make_node t.raw "ConcatV2"
    let concat := { concat with
      name := concat.name ++ "/" ++ natStr t.index ++ "_" ++ toF.code ++ "/aux_resplit_" ++
        natStr i ++ "/concat",
      device := tg.devices.getD dest "" }
    let concat := { concat with input := chunk ++ [axis.name] }
    let concat := { concat with attr := attrInsert concat.attr "N" (.i chunk.length) }
    let concat := { concat with attr := attrInsert concat.attr "T" dv }
    let concat := { concat with attr := attrInsert concat.attr "Tidx" (.type .DT_INT32) }
    let concat := (List.range chunk.length).foldl
      (fun nd j => set_input_size nd j (sz / fm.ndev)) concat
    let step := resplitConcats t fm toF dv sz (i + 1) rest
      { tg with nodes := tg.nodes ++ [axis, concat] }
    ((dest, concat.name) :: step.1, step.2)

/-- Second stage of `Tensor::resplit`: one `Const` dim plus one `Split` per
concat, producing `toF.ndev/gcd` references each. -/
def resplitSplits (t : TensorInfo) (fm toF : Form) (dv : AttrValue) (sz g : Nat) :
    Nat → List ((Nat × String) × List Nat) → Target → (List String × Target)
  | _, [], tg => ([], tg)
  | i, ((concat_place, concated), devs) :: rest, tg =>
    let dim := make_node t.raw "Const"
    let dim := { dim with
      name := dim.name ++ "/" ++ natStr t.index ++ "_" ++ toF.code ++ "/aux_resplit_" ++
        natStr i ++ "/split_dim",
      device := tg.devices.getD concat_place "" }
    let dim := { dim with attr := attrInsert dim.attr "dtype" (.type .DT_INT32) }
    let dim := { dim with attr := attrInsert dim.attr "value" (.tensor (scalarI32 0)) }
    let split := make_node t.raw "Split"
    let split := { split with
      name := split.name ++ "/" ++ natStr t.index ++ "_" ++ toF.code ++ "/aux_resplit_" ++
        natStr i ++ "/split",
      device := tg.devices.getD concat_place "" }
    let split := { split with input := [dim.name, concated] }
    let split := { split with attr := attrInsert split.attr "T" dv }
    let split := { split with attr := attrInsert split.attr "num_split" (.i devs.length) }
    let split := set_input_size split 1 (sz / g)
    let result := (List.range (toF.ndev / g)).map (fun j => split.name ++ ":" ++ natStr j)
    let step := resplitSplits t fm toF dv sz g (i + 1) rest
      { tg with nodes := tg.nodes ++ [dim, split] }
    (result ++ step.1, step.2)

/-- Body of `Tensor::resplit` (after the assertion). -/
def resplit_body (af : AsFormFn) (t : TensorInfo) (c : FormCache) (fm toF : Form)
    (tg : Target) : Option (List String × FormCache × Target) :=
  let g := subGcd fm.ndev toF.ndev
  match af c fm tg with
  | none => none
  | some (names, c1, tg1) =>
    match get_dtype t.raw with
    | none => none
    | some dv =>
      match t.get_size with
      | none => none
      | some sz =>
        let step1 := resplitConcats t fm toF dv sz 0 (chunksOf (fm.ndev / g) names) tg1
        let step2 := resplitSplits t fm toF dv sz g 0
          (step1.1.zip (chunksOf (toF.ndev / g) toF.devices)) step1.2
        some (step2.1, c1, step2.2)

/-- `Tensor::resplit`. -/
def resplit_impl (af : AsFormFn) (t : TensorInfo) (c : FormCache) (fm toF : Form)
    (tg : Target) : Option (List String × FormCache × Target) :=
  if fm.valid && toF.valid && fm.is_part && toF.is_part then
    resplit_body af t c fm toF tg
  else none

/-- The per-device loop of `Tensor::all_reduce_nccl`: one `NcclAllReduce`
node per producer device. -/
def ncclLoop (af : AsFormFn) (t : TensorInfo) (fm toF : Form) :
    Nat → List Nat → FormCache → Target → Option (FormCache × Target)
  | _, [], c, tg => some (c, tg)
  | i, device_id :: rest, c, tg =>
    let nccl := make_node t.raw "NcclAllReduce"
    let nccl := { nccl with
      name := nccl.name ++ "/" ++ natStr t.index ++ "_" ++ toF.code ++ "/aux_nccl_" ++ natStr i,
      device := tg.devices.getD device_id "" }
    let nccl := { nccl with attr := attrInsert nccl.attr "reduction" (.s "sum") }
    match get_dtype t.raw with
    | none => none
    | some dv =>
      let nccl := { nccl with attr := attrInsert nccl.attr "T" dv }
      let nccl := { nccl with attr := attrInsert nccl.attr "num_devices" (.i fm.ndev) }
      let nccl := { nccl with attr := attrInsert nccl.attr "shared_name" (.s t.original_name) }
      match af c fm tg with
      | none => none
      | some (names, c1, tg1) =>
        let nccl := { nccl with input := [names.getD i "" ++ ":" ++ natStr t.index] }
        ncclLoop af t fm toF (i + 1) rest c1 { tg1 with nodes := tg1.nodes ++ [nccl] }

/-- Body of `Tensor::all_reduce_nccl` (after the assertion). -/
def all_reduce_nccl_body (af : AsFormFn) (t : TensorInfo) (c : FormCache) (fm toF : Form)
    (tg : Target) : Option (List String × FormCache × Target) :=
  match ncclLoop af t fm toF 0 fm.devices c tg with
  | none => none
  | some (c1, tg1) =>
    some ((List.range fm.ndev).map (fun i =>
      t.raw.name ++ "/" ++ natStr t.index ++ "_" ++ toF.code ++ "/aux_nccl_" ++ natStr i),
      c1, tg1)

/-- `Tensor::all_reduce_nccl`. -/
def all_reduce_nccl_impl (af : AsFormFn) (t : TensorInfo) (c : FormCache) (fm toF : Form)
    (tg : Target) : Option (List String × FormCache × Target) :=
  if fm.valid && toF.valid && fm.is_part && toF.is_full && fm.devices == toF.devices then
    all_reduce_nccl_body af t c fm toF tg
  else none

/-- Ring all-reduce phase 1: record the shapes. -/
def ringShapes (t : TensorInfo) (toF : Form) (devices : List String) (dv : AttrValue)
    (psize : Nat) (list : List String) : List Nat → Target → (List String × Target)
  | [], tg => ([], tg)
  | i :: rest, tg =>
    let shape := make_node t.raw "Shape"
    let shape := { shape with
      name := shape.name ++ "/" ++ toF.code ++ "_" ++ natStr t.index ++ "/aux_ring/shape_" ++
        natStr i,
      device := devices.getD i "" }
    let shape := { shape with attr := attrInsert shape.attr "T" dv }
    let shape := { shape with input := [list.getD i ""] }
    let shape := set_input_size shape 0 psize
    let step := ringShapes t toF devices dv psize list rest
      { tg with nodes := tg.nodes ++ [shape] }
    (shape.name :: step.1, step.2)

/-- Ring all-reduce phase 2: flatten each replica with a `Const [-1]` shape
and a `Reshape`. -/
def ringFlats (t : TensorInfo) (toF : Form) (devices : List String) (dv : AttrValue)
    (psize : Nat) (list : List String) : List Nat → Target → (List String × Target)
  | [], tg => ([], tg)
  | i :: rest, tg =>
    let shape := make_node t.raw "Const"
    let shape := { shape with
      name := shape.name ++ "/" ++ toF.code ++ "_" ++ natStr t.index ++ "/aux_ring/flat_" ++
        natStr i ++ "/shape",
      device := devices.getD i "" }
    let shape := { shape with attr := attrInsert shape.attr "dtype" (.type .DT_INT32) }
    let shape := { shape with attr := attrInsert shape.attr "value" (.tensor flatShapeI32) }
    let flat := make_node t.raw "Reshape"
    let flat := { flat with
      name := flat.name ++ "/" ++ toF.code ++ "_" ++ natStr t.index ++ "/aux_ring/flat_" ++
        natStr i ++ "/flat",
      device := devices.getD i "" }
    let flat := { flat with attr := attrInsert flat.attr "T" dv }
    let flat := { flat with input := [list.getD i "", shape.name] }
    let flat := set_input_size flat 0 psize
    let step := ringFlats t toF devices dv psize list rest
      { tg with nodes := tg.nodes ++ [shape, flat] }
    (flat.name :: step.1, step.2)

/-- Ring all-reduce phase 3: split each flattened replica into `n` chunks. -/
def ringChunks (t : TensorInfo) (toF : Form) (devices : List String) (dv : AttrValue)
    (psize : Nat) (flats : List String) (n : Nat) :
    List Nat → Target → (List (List String) × Target)
  | [], tg => ([], tg)
  | i :: rest, tg =>
    let dim := make_node t.raw "Const"
    let dim := { dim with
      name := dim.name ++ "/" ++ toF.code ++ "_" ++ natStr t.index ++ "/aux_ring/split_" ++
        natStr i ++ "/dim",
      device := devices.getD i "" }
    let dim := { dim with attr := attrInsert dim.attr "dtype" (.type .DT_INT32) }
    let dim := { dim with attr := attrInsert dim.attr "value" (.tensor (scalarI32 0)) }
    let split := make_node t.raw "Split"
    let split := { split with
      name := split.name ++ "/" ++ toF.code ++ "_" ++ natStr t.index ++ "/aux_ring/split_" ++
        natStr i ++ "/split",
      device := devices.getD i "" }
    let split := { split with input := [dim.name, flats.getD i ""] }
    let split := { split with attr := attrInsert split.attr "T" dv }
    let split := { split with attr := attrInsert split.attr "num_split" (.i n) }
    let split := set_input_size split 1 psize
    let refs := (List.range n).map (fun x => split.name ++ ":" ++ natStr x)
    let step := ringChunks t toF devices dv psize flats n rest
      { tg with nodes := tg.nodes ++ [dim, split] }
    (refs :: step.1, step.2)

/-- Ring all-reduce phase 4, inner loop: the `Add` nodes of one
reduce-scatter round. -/
def ringAddStep (t : TensorInfo) (toF : Form) (devices : List String) (dv : AttrValue)
    (psize n round : Nat) : List Nat → List (List String) → Target →
    (List (List String) × Target)
  | [], chunks, tg => (chunks, tg)
  | i :: rest, chunks, tg =>
    let add := make_node t.raw "Add"
    let add := { add with
      name := add.name ++ "/" ++ toF.code ++ "_" ++ natStr t.index ++ "/aux_ring/add_" ++
        natStr i ++ "_" ++ natStr round,
      device := devices.getD i "" }
    let add := { add with input :=
      [(chunks.getD i []).getD ((round + i) % n) "",
       (chunks.getD ((i + 1) % n) []).getD ((round + i) % n) ""] }
    let add := { add with attr := attrInsert add.attr "T" dv }
    let add := set_input_size add 0 psize
    let add := set_input_size add 1 psize
    let chunks := chunks.set i ((chunks.getD i []).set ((round + i) % n) add.name)
    ringAddStep t toF devices dv psize n round rest chunks
      { tg with nodes := tg.nodes ++ [add] }

/-- Ring all-reduce phase 4: `n-1` reduce-scatter rounds. -/
def ringAddRounds (t : TensorInfo) (toF : Form) (devices : List String) (dv : AttrValue)
    (psize n : Nat) : List Nat → List (List String) → Target →
    (List (List String) × Target)
  | [], chunks, tg => (chunks, tg)
  | round :: rest, chunks, tg =>
    let step := ringAddStep t toF devices dv psize n round (List.range n) chunks tg
    ringAddRounds t toF devices dv psize n rest step.1 step.2

/-- Ring all-reduce phase 5, inner loop: the `Identity` copies of one
all-gather round. -/
def ringIdStep (t : TensorInfo) (toF : Form) (devices : List String) (dv : AttrValue)
    (psize n round : Nat) : List Nat → List (List String) → Target →
    (List (List String) × Target)
  | [], chunks, tg => (chunks, tg)
  | i :: rest, chunks, tg =>
    let identity := make_node t.raw "Identity"
    let identity := { identity with
      name := identity.name ++ "/" ++ toF.code ++ "_" ++ natStr t.index ++
        "/aux_ring/identity_" ++ natStr i ++ "_" ++ natStr round,
      device := devices.getD i "" }
    let identity := { identity with attr := attrInsert identity.attr "T" dv }
    let identity := { identity with input :=
      [(chunks.getD ((i + 1) % n) []).getD ((i + round + n - 1) % n) ""] }
    let identity := set_input_size identity 0 psize
    let chunks := chunks.set i
      ((chunks.getD i []).set ((i + round + n - 1) % n) identity.name)
    ringIdStep t toF devices dv psize n round rest chunks
      { tg with nodes := tg.nodes ++ [identity] }

/-- Ring all-reduce phase 5: `n-1` all-gather rounds. -/
def ringIdRounds (t : TensorInfo) (toF : Form) (devices : List String) (dv : AttrValue)
    (psize n : Nat) : List Nat → List (List String) → Target →
    (List (List String) × Target)
  | [], chunks, tg => (chunks, tg)
  | round :: rest, chunks, tg =>
    let step := ringIdStep t toF devices dv psize n round (List.range n) chunks tg
    ringIdRounds t toF devices dv psize n rest step.1 step.2

/-- Ring all-reduce phase 6: concatenate the chunks on each device. -/
def ringConcats (t : TensorInfo) (toF : Form) (devices : List String) (dv : AttrValue)
    (psize n : Nat) : Nat → List (List String) → Target → (List String × Target)
  | _, [], tg => ([], tg)
  | i, chunk :: rest, tg =>
    let axis := make_node t.raw "Const"
    let axis := { axis with
      name := axis.name ++ "/" ++ toF.code ++ "_" ++ natStr t.index ++ "/aux_ring/concat_" ++
        natStr i ++ "/axis",
      device := devices.getD i "" }
    let axis := { axis with attr := attrInsert axis.attr "dtype" (.type .DT_INT32) }
    let axis := { axis with attr := attrInsert axis.attr "value" (.tensor (scalarI32 0)) }
    let len := chunk.length
    let concat := make_node t.raw "ConcatV2"
    let concat := { concat with
      name := concat.name ++ "/" ++ toF.code ++ "_" ++ natStr t.index ++ "/aux_ring/concat_" ++
        natStr i ++ "/concat",
      device := devices.getD i "" }
    let concat := { concat with input := chunk ++ [axis.name] }
    let concat := { concat with attr := attrInsert concat.attr "N" (.i n) }
    let concat := { concat with attr := attrInsert concat.attr "T" dv }
    let concat := { concat with attr := attrInsert concat.attr "Tidx" (.type .DT_INT32) }
    let concat := (List.range len).foldl (fun nd j => set_input_size nd j psize) concat
    let step := ringConcats t toF devices dv psize n (i + 1) rest
      { tg with nodes := tg.nodes ++ [axis, concat] }
    (concat.name :: step.1, step.2)

/-- Ring all-reduce phase 7: restore the recorded shapes. -/
def ringReshapes (t : TensorInfo) (toF : Form) (devices : List String) (dv : AttrValue)
    (psize : Nat) : Nat → List (String × String) → Target → (List String × Target)
  | _, [], tg => ([], tg)
  | i, (concat, shape) :: rest, tg =>
    let reshape := make_node t.raw "Reshape"
    let reshape := { reshape with
      name := reshape.name ++ "/" ++ toF.code ++ "_" ++ natStr t.index ++
        "/aux_ring/reshape_" ++ natStr i,
      device := devices.getD i "" }
    let reshape := { reshape with attr := attrInsert reshape.attr "T" dv }
    let reshape := { reshape with input := [concat, shape] }
    let reshape := set_input_size reshape 0 psize
    let step := ringReshapes t toF devices dv psize (i + 1) rest
      { tg with nodes := tg.nodes ++ [reshape] }
    (reshape.name :: step.1, step.2)

/-- Body of `Tensor::all_reduce_ring` (after the assertion). -/
def all_reduce_ring_body (af : AsFormFn) (t : TensorInfo) (c : FormCache) (fm toF : Form)
    (tg : Target) : Option (List String × FormCache × Target) :=
  let devices := fm.devices.map (fun id => tg.devices.getD id "")
  let n := devices.length
  match get_dtype t.raw with
  | none => none
  | some dv =>
    match t.get_size with
    | none => none
    | some szAll =>
      let psize := szAll / fm.ndev
      match af c fm tg with
      | none => none
      | some (list, c1, tg1) =>
        let p1 := ringShapes t toF devices dv psize list (List.range n) tg1
        let p2 := ringFlats t toF devices dv psize list (List.range n) p1.2
        let p3 := ringChunks t toF devices dv psize p2.1 n (List.range n) p2.2
        let p4 := ringAddRounds t toF devices dv psize n (List.range (n - 1)) p3.1 p3.2
        let p5 := ringIdRounds t toF devices dv psize n (List.range (n - 1)) p4.1 p4.2
        let p6 := ringConcats t toF devices dv psize n 0 p5.1 p5.2
        let p7 := ringReshapes t toF devices dv psize 0 (p6.1.zip p1.1) p6.2
        some (p7.1, c1, p7.2)

/-- `Tensor::all_reduce_ring`. -/
def all_reduce_ring_impl (af : AsFormFn) (t : TensorInfo) (c : FormCache) (fm toF : Form)
    (tg : Target) : Option (List String × FormCache × Target) :=
  if fm.valid && toF.valid && fm.is_part && toF.is_full && fm.devices == toF.devices then
    all_reduce_ring_body af t c fm toF tg
  else none

/-! ## `Tensor::as_form` -/

/-- One unfolding of `Tensor::as_form`: consult the cache; on a miss either
produce the own-form identity names or dispatch on `(requested kind,
producer kind)`; record the result in the cache. -/
def asFormF (af : AsFormFn) (t : TensorInfo) (c : FormCache) (form : Form) (tg : Target) :
    Option (List String × FormCache × Target) :=
  match lookupForm c form with
  | some names => some (names, c, tg)
  | none =>
    let computed :=
      if form = t.nodeForm then
        some (ownNames t form, c, tg)
      else
        match form.kind, t.nodeForm.kind with
        | FormKind.Full, FormKind.Full => replicate_broadcast_impl af t c t.nodeForm form tg
        | FormKind.Part, FormKind.Full => replicate_split_impl af t c t.nodeForm form tg
        | FormKind.Full, FormKind.Part => aggregate_cat_impl af t c t.nodeForm form tg
        | FormKind.Part, FormKind.Part => resplit_impl af t c t.nodeForm form tg
    match computed with
    | none => none
    | some (names, c1, tg1) => some (names, insertForm c1 form names, tg1)

/-- `Tensor::as_form`, bounded by fuel (the source recursion depth is ≤ 2). -/
def asForm : Nat → TensorInfo → FormCache → Form → Target →
    Option (List String × FormCache × Target)
  | 0, _, _, _, _ => none
  | fuel + 1, t, c, form, tg =>
    asFormF (fun c' f' tg' => asForm fuel t c' f' tg') t c form tg

/-- `Tensor::aggregate_sum` with the `as_form` callback instantiated. -/
def aggregate_sum (fuel : Nat) (t : TensorInfo) (c : FormCache) (fm toF : Form)
    (tg : Target) : Option (List String × FormCache × Target) :=
  aggregate_sum_impl (fun c' f' tg' => asForm fuel t c' f' tg') t c fm toF tg

/-- `Tensor::aggregate_cat` with the `as_form` callback instantiated. -/
def aggregate_cat (fuel : Nat) (t : TensorInfo) (c : FormCache) (fm toF : Form)
    (tg : Target) : Option (List String × FormCache × Target) :=
  aggregate_cat_impl (fun c' f' tg' => asForm fuel t c' f' tg') t c fm toF tg

/-- `Tensor::replicate_broadcast` with the `as_form` callback instantiated. -/
def replicate_broadcast (fuel : Nat) (t : TensorInfo) (c : FormCache) (fm toF : Form)
    (tg : Target) : Option (List String × FormCache × Target) :=
  replicate_broadcast_impl (fun c' f' tg' => asForm fuel t c' f' tg') t c fm toF tg

/-- `Tensor::replicate_split` with the `as_form` callback instantiated. -/
def replicate_split (fuel : Nat) (t : TensorInfo) (c : FormCache) (fm toF : Form)
    (tg : Target) : Option (List String × FormCache × Target) :=
  replicate_split_impl (fun c' f' tg' => asForm fuel t c' f' tg') t c fm toF tg

/-- `Tensor::resplit` with the `as_form` callback instantiated. -/
def resplit (fuel : Nat) (t : TensorInfo) (c : FormCache) (fm toF : Form)
    (tg : Target) : Option (List String × FormCache × Target) :=
  resplit_impl (fun c' f' tg' => asForm fuel t c' f' tg') t c fm toF tg

/-- `Tensor::all_reduce_nccl` with the `as_form` callback instantiated. -/
def all_reduce_nccl (fuel : Nat) (t : TensorInfo) (c : FormCache) (fm toF : Form)
    (tg : Target) : Option (List String × FormCache × Target) :=
  all_reduce_nccl_impl (fun c' f' tg' => asForm fuel t c' f' tg') t c fm toF tg

/-- `Tensor::all_reduce_ring` with the `as_form` callback instantiated. -/
def all_reduce_ring (fuel : Nat) (t : TensorInfo) (c : FormCache) (fm toF : Form)
    (tg : Target) : Option (List String × FormCache × Target) :=
  all_reduce_ring_impl (fun c' f' tg' => asForm fuel t c' f' tg') t c fm toF tg

/-! ## `Node::compile` -/

/-- A node as it exists at compile time: the built `Node` plus the form the
strategy assigned. -/
structure GNode where
  raw : NodeDef
  controls : List Nat
  inputs : List (Nat × Nat × FormKind)
  form : Form
deriving DecidableEq

/-- The graph during compilation: each node paired with the form caches of
its (lazily created) output tensors. -/
abbrev GraphSt := List (GNode × List FormCache)

/-- `Node::get_output(index)`: grow the outputs vector on demand and hand
out the tensor identity together with its current cache. -/
def get_output (g : GraphSt) (id : Nat) (port : Nat) :
    Option (TensorInfo × FormCache × GraphSt) :=
  match g.get? id with
  | none => none
  | some (gn, outs) =>
    let outs' :=
      if outs.length ≤ port then outs ++ List.replicate (port + 1 - outs.length) [] else outs
    some (⟨gn.raw, gn.form, port⟩, outs'.getD port [], g.set id (gn, outs'))

/-- Write a tensor's updated form cache back into the graph. -/
def setOutput (g : GraphSt) (id : Nat) (port : Nat) (c : FormCache) : GraphSt :=
  match g.get? id with
  | none => g
  | some (gn, outs) => g.set id (gn, outs.set port c)

/-- The input-rewriting loop of `Node::compile` (step 2): for the `i`-th data
input, record its size in `_tge_input_sizes` (according to the *node's* form
kind) and request the producer tensor in form
`{ kind, devices := self.form.devices }`, keeping entry `replica_index`. -/
def compileInputs (fuel : Nat) (selfForm : Form) (ri : Nat) :
    List (Nat × Nat × FormKind) → Nat → NodeDef → GraphSt → Target →
    Option (NodeDef × List String × GraphSt × Target)
  | [], _, nd, g, tg => some (nd, [], g, tg)
  | (nid, port, kind) :: rest, i, nd, g, tg =>
    match get_output g nid port with
    | none => none
    | some (t, cache, g1) =>
      match t.get_size with
      | none => none
      | some sz =>
        let nd1 := set_input_size nd i (match selfForm.kind with
          | FormKind.Full => sz
          | FormKind.Part => sz / selfForm.ndev)
        match asForm fuel t cache { kind := kind, devices := selfForm.devices } tg with
        | none => none
        | some (names, cache', tg1) =>
          match names.get? ri with
          | none => none
          | some nm =>
            match compileInputs fuel selfForm ri rest (i + 1) nd1
                (setOutput g1 nid port cache') tg1 with
            | none => none
            | some (nd', nms, g', tg') => some (nd', nm :: nms, g', tg')

/-- Step 3 of `Node::compile`: the control-dependency inputs, fanned out over
every replica of each control producer. -/
def controlInputs (g : GraphSt) : List Nat → Option (List String)
  | [] => some []
  | cid :: rest =>
    match g.get? cid with
    | none => none
    | some (dep, _) =>
      (controlInputs g rest).map (fun more =>
        ((List.range dep.form.ndev).map (replicaStr dep.raw.name)) ++ more)

/-- One iteration of the outer loop of `Node::compile`: emit the replica of
`self` on `dev` (device index `self.form.devices[ri]`). -/
def compileReplica (fuel : Nat) (self : GNode) (ri dev : Nat) (g : GraphSt) (tg : Target) :
    Option (GraphSt × Target) :=
  let nd0 : NodeDef := { self.raw with
    name := replicaStr self.raw.name ri,
    device := tg.devices.getD dev "" }
  let nd0 := set_origin nd0 self.raw.name
  let nd0 := set_form nd0 self.form.code
  match compileInputs fuel self.form ri self.inputs 0 nd0 g tg with
  | none => none
  | some (nd1, names, g', tg') =>
    match controlInputs g' self.controls with
    | none => none
    | some ctrls =>
      let nd2 := { nd1 with input := names ++ ctrls }
      some (g', { tg' with nodes := tg'.nodes ++ [nd2] })

/-- The outer loop of `Node::compile` over `enumerate(self.form.devices)`. -/
def compileReplicas (fuel : Nat) (self : GNode) :
    Nat → List Nat → GraphSt → Target → Option (GraphSt × Target)
  | _, [], g, tg => some (g, tg)
  | ri, dev :: rest, g, tg =>
    match compileReplica fuel self ri dev g tg with
    | none => none
    | some (g', tg') => compileReplicas fuel self (ri + 1) rest g' tg'

/-- `Node::compile`. -/
def GNode.compile (fuel : Nat) (self : GNode) (g : GraphSt) (tg : Target) :
    Option (GraphSt × Target) :=
  compileReplicas fuel self 0 self.form.devices g tg

/-! ## Statement-level predicates and concrete fixtures -/

/-- The auxiliary-name pattern claimed by the specification:
`"<node>/<port>_<toformcode>/aux_<...>"`. -/
def AuxNamed (t : TensorInfo) (toF : Form) (nd : NodeDef) : Prop :=
  ∃ rest, nd.name = t.raw.name ++ "/" ++ natStr t.index ++ "_" ++ toF.code ++ "/aux_" ++ rest

/-- The naming pattern the ring builder actually uses:
`"<node>/<toformcode>_<port>/aux_ring/<...>"`. -/
def RingNamed (t : TensorInfo) (toF : Form) (nd : NodeDef) : Prop :=
  ∃ rest, nd.name = t.raw.name ++ "/" ++ toF.code ++ "_" ++ natStr t.index ++ "/aux_ring/" ++ rest

/-- Target extension: the sink can only grow, devices/links/paths are fixed. -/
def TgExt (a b : Target) : Prop :=
  b.devices = a.devices ∧ b.links = a.links ∧ b.paths = a.paths ∧
    ∃ Δ, b.nodes = a.nodes ++ Δ

/-- The `_tge_input_sizes` int-list of an emitted node. -/
def tgeSizes (nd : NodeDef) : List Int :=
  ((getAttr nd "_tge_input_sizes").getD .empty).getList.i

/-- A producer on shape `[2]` (so `get_size = 8`), partitioned over devices
`0` and `1`. -/
def rawA : NodeDef :=
  { name := "A", op := "Whatever", input := [], device := "",
    attr := [("T", .type .DT_FLOAT), ("_output_shapes", .list ⟨[], [⟨[2]⟩]⟩)] }

/-- Output 0 of `rawA` under form `part_0_1`. -/
def tA : TensorInfo := ⟨rawA, ⟨.Part, [0, 1]⟩, 0⟩

/-- A two-device target. -/
def tg2 : Target := ⟨[], ["d0", "d1"], [], []⟩

/-- A producer on shape `[4]` (so `get_size = 16`), partitioned over devices
`0`–`3`. -/
def rawA4 : NodeDef :=
  { name := "A", op := "Whatever", input := [], device := "",
    attr := [("T", .type .DT_FLOAT), ("_output_shapes", .list ⟨[], [⟨[4]⟩]⟩)] }

/-- Output 0 of `rawA4` under form `part_0_1_2_3`. -/
def tA4 : TensorInfo := ⟨rawA4, ⟨.Part, [0, 1, 2, 3]⟩, 0⟩

/-- A four-device target. -/
def tg4 : Target := ⟨[], ["d0", "d1", "d2", "d3"], [], []⟩

/-- A producer of size 4 placed in form `full_0`. -/
def rawP : NodeDef :=
  { name := "A", op := "Whatever", input := [], device := "",
    attr := [("T", .type .DT_FLOAT), ("_output_shapes", .list ⟨[], [⟨[1]⟩]⟩)] }

/-- The producer node `A` (form `full_0`). -/
def gnA : GNode := ⟨rawP, [], [], ⟨.Full, [0]⟩⟩

/-- A consumer reading output 0 of `A`. -/
def rawB : NodeDef :=
  { name := "B", op := "Whatever", input := ["A"], device := "",
    attr := [("T", .type .DT_FLOAT)] }

/-- The consumer node `B`: form `part_0_1`, but its single logical input is
requested in `Full` kind. -/
def gnB : GNode := ⟨rawB, [], [(0, 0, .Full)], ⟨.Part, [0, 1]⟩⟩

/-- The compile-time graph holding just the producer. -/
def gSt : GraphSt := [(gnA, [])]

/-- Two nodes forming a control-dependency cycle (no data edges at all). -/
def exCyc : List NodeDef :=
  [ { name := "A", op := "X", input := ["^B"], device := "", attr := [] },
    { name := "B", op := "X", input := ["^A"], device := "", attr := [] } ]

/-- A small well-formed input, listed out of topological order. -/
def exOk : List NodeDef :=
  [ { name := "B", op := "X", input := ["A:0", "^A"], device := "", attr := [] },
    { name := "A", op := "X", input := [], device := "", attr := [] } ]

/-- A full-form producer tensor (form `full_0`). -/
def tF : TensorInfo := ⟨rawP, ⟨.Full, [0]⟩, 0⟩

/-- A default (empty) node definition, used as a lookup fallback in
statements. -/
def ndDefault : NodeDef := ⟨"", "", [], "", []⟩

/-- The `NcclAllReduce` node the nccl loop emits for replica `i` (device
string `dev`, input reference `inp`). -/
def mkNcclNode (t : TensorInfo) (fm toF : Form) (dv : AttrValue) (dev inp : String)
    (i : Nat) : NodeDef :=
  let nccl := make_node t.raw "NcclAllReduce"
  let nccl := { nccl with
    name := nccl.name ++ "/" ++ natStr t.index ++ "_" ++ toF.code ++ "/aux_nccl_" ++ natStr i,
    device := dev }
  let nccl := { nccl with attr := attrInsert nccl.attr "reduction" (.s "sum") }
  let nccl := { nccl with attr := attrInsert nccl.attr "T" dv }
  let nccl := { nccl with attr := attrInsert nccl.attr "num_devices" (.i fm.ndev) }
  let nccl := { nccl with attr := attrInsert nccl.attr "shared_name" (.s t.original_name) }
  { nccl with input := [inp] }

/-- The `get_size` of the producer tensor behind one data-input triple. -/
def inputSize (g : GraphSt) (inp : Nat × Nat × FormKind) : Option Nat :=
  match g.get? inp.1 with
  | none => none
  | some (gn, _) => TensorInfo.get_size ⟨gn.raw, gn.form, inp.2.1⟩

/-- A concrete `aggregate_sum` run (used to witness the naming law). -/
def c2res : List String × FormCache × Target :=
  (aggregate_sum 2 tA [] tA.nodeForm ⟨.Full, [0]⟩ tg2).getD ([], [], tg2)

/-- The one operator `c2res` emits. -/
def c2nd : NodeDef := c2res.2.2.nodes.getD 0 ndDefault

/-- The result of compiling the consumer `B` (used in witnesses). -/
def c1res : GraphSt × Target := (GNode.compile 3 gnB gSt tg2).getD (gSt, tg2)

/-- Every index stored in `name_dict` points below the end of the admitted
node vector. -/
def DictBound (st : BuildState) : Prop :=
  ∀ p ∈ st.name_dict, p.2 < st.nodes.length

/-- Every admitted node only references earlier indices (data and control). -/
def NodeOrd (st : BuildState) : Prop :=
  ∀ j bn, st.nodes.get? j = some bn →
    (∀ c ∈ bn.controls, c < j) ∧ (∀ x ∈ bn.inputs, x.1 < j)

/-- The work-queue invariant of `Graph::new` relative to the input slice:
every queued definition comes from the input, and every input definition is
either already admitted (its name resolvable) or still queued. -/
def BuildInv (defs : List NodeDef) (st : BuildState) : Prop :=
  (∀ q ∈ st.queue, q ∈ defs) ∧
  (∀ d ∈ defs, dictHas st.name_dict d.name = true ∨ d.name ∈ st.queue.map (·.name))

/-- The result of `Graph::new` on the small well-formed input (used in
witnesses). -/
def c10res : List BNode × List (String × Nat) :=
  (runB 50 (initState exOk)).getD ([], [])

/-! # Theorems -/

/-! ## String and decimal lemmas -/

theorem strAssoc (a b c : String) : a ++ b ++ c = a ++ (b ++ c) :=
  String.append_assoc a b c

theorem natDigitsAux_acc (f : Nat) :
    ∀ (n : Nat) (acc : List Char),
      natDigitsAux f n acc = natDigitsAux f n [] ++ acc := by
  induction f with
  | zero => intro n acc; simp [natDigitsAux]
  | succ f ih =>
    intro n acc
    by_cases h : n < 10
    · simp [natDigitsAux, h]
    · simp only [natDigitsAux, if_neg h]
      rw [ih (n / 10) (digitChar (n % 10) :: acc), ih (n / 10) [digitChar (n % 10)]]
      simp

theorem natDigitsAux_fuel :
    ∀ (n f g : Nat), n < f → n < g →
      natDigitsAux f n [] = natDigitsAux g n [] := by
  intro n
  induction n using Nat.strong_induction_on with
  | _ n ih =>
    intro f g hf hg
    match f, g with
    | f + 1, g + 1 =>
      by_cases h : n < 10
      · simp [natDigitsAux, h]
      · simp only [natDigitsAux, if_neg h]
        rw [natDigitsAux_acc f, natDigitsAux_acc g]
        have h10 : n / 10 < n := Nat.div_lt_self (by omega) (by omega)
        rw [ih (n / 10) h10 f g (by omega) (by omega)]

theorem natDigits_small {n : Nat} (h : n < 10) : natDigits n = [digitChar n] := by
  simp [natDigits, natDigitsAux, h]

theorem natDigits_large {n : Nat} (h : 10 ≤ n) :
    natDigits n = natDigits (n / 10) ++ [digitChar (n % 10)] := by
  have h10 : n / 10 < n := Nat.div_lt_self (by omega) (by omega)
  unfold natDigits
  conv_lhs => simp only [natDigitsAux, if_neg (by omega : ¬ n < 10)]
  rw [natDigitsAux_acc n, natDigitsAux_fuel (n / 10) n (n / 10 + 1) (by omega) (by omega)]

theorem digitChar_dig {d : Nat} (h : d < 10) :
    isDigCh (digitChar d) = true ∧ charVal (digitChar d) = d := by
  interval_cases d <;> exact ⟨by decide, by decide⟩

theorem natDigits_ne_nil (n : Nat) : natDigits n ≠ [] := by
  induction n using Nat.strong_induction_on with
  | _ n ih =>
    by_cases h : n < 10
    · simp [natDigits_small h]
    · simp [natDigits_large (by omega : 10 ≤ n)]

theorem natDigits_all_dig (n : Nat) : (natDigits n).all isDigCh = true := by
  induction n using Nat.strong_induction_on with
  | _ n ih =>
    by_cases h : n < 10
    · simp [natDigits_small h, (digitChar_dig h).1]
    · have h10 : n / 10 < n := Nat.div_lt_self (by omega) (by omega)
      simp only [natDigits_large (by omega : 10 ≤ n), List.all_append, Bool.and_eq_true]
      refine And.intro (ih (n / 10) h10) ?_
      simp [(digitChar_dig (Nat.mod_lt n (by omega) : n % 10 < 10)).1]

theorem digitsVal_append_one (xs : List Char) (c : Char) :
    digitsVal (xs ++ [c]) = 10 * digitsVal xs + charVal c := by
  simp [digitsVal, List.foldl_append, Nat.mul_comm]

theorem digitsVal_natDigits (n : Nat) : digitsVal (natDigits n) = n := by
  induction n using Nat.strong_induction_on with
  | _ n ih =>
    by_cases h : n < 10
    · simp [natDigits_small h, digitsVal, (digitChar_dig h).2]
    · have h10 : n / 10 < n := Nat.div_lt_self (by omega) (by omega)
      rw [natDigits_large (by omega : 10 ≤ n), digitsVal_append_one, ih (n / 10) h10,
        (digitChar_dig (Nat.mod_lt n (by omega) : n % 10 < 10)).2]
      omega

theorem parseNat_natDigits (n : Nat) : parseNat (natDigits n) = some n := by
  have h1 := natDigits_ne_nil n
  simp [parseNat, h1, natDigits_all_dig n, digitsVal_natDigits n]

theorem isDigCh_ne_sep {c : Char} (h : isDigCh c = true) : c ≠ '_' := by
  intro he; subst he; simp [isDigCh] at h

theorem splitOnChar_nosep {c : Char} :
    ∀ {xs : List Char}, (∀ a ∈ xs, a ≠ c) → splitOnChar c xs = [xs] := by
  intro xs
  induction xs with
  | nil => intro _; rfl
  | cons a rest ih =>
    intro h
    have ha : a ≠ c := h a (by simp)
    simp only [splitOnChar, if_neg ha]
    rw [ih (fun x hx => h x (by simp [hx]))]

theorem splitOnChar_sep {c : Char} :
    ∀ {xs : List Char} (ys : List Char), (∀ a ∈ xs, a ≠ c) →
      splitOnChar c (xs ++ c :: ys) = xs :: splitOnChar c ys := by
  intro xs
  induction xs with
  | nil => intro ys _; simp [splitOnChar]
  | cons a rest ih =>
    intro ys h
    have ha : a ≠ c := h a (by simp)
    simp only [List.cons_append, splitOnChar, if_neg ha, List.append_eq]
    rw [ih ys (fun x hx => h x (by simp [hx]))]

theorem code_foldl_data :
    ∀ (ds : List Nat) (init : String),
      (ds.foldl (fun x d => x ++ "_" ++ natStr d) init).data =
        init.data ++ ds.flatMap (fun d => '_' :: natDigits d) := by
  intro ds
  induction ds with
  | nil => intro init; simp
  | cons d rest ih =>
    intro init
    simp only [List.foldl_cons, List.flatMap_cons]
    rw [ih (init ++ "_" ++ natStr d)]
    simp [String.data_append, natStr]

theorem splitOnChar_code :
    ∀ (ds : List Nat) (pre : List Char), (∀ a ∈ pre, a ≠ '_') →
      splitOnChar '_' (pre ++ ds.flatMap (fun d => '_' :: natDigits d)) =
        pre :: ds.map natDigits := by
  intro ds
  induction ds with
  | nil => intro pre h; simpa using splitOnChar_nosep h
  | cons d rest ih =>
    intro pre h
    have hd : ∀ a ∈ natDigits d, a ≠ '_' := by
      intro a ha
      have := natDigits_all_dig d
      rw [List.all_eq_true] at this
      exact isDigCh_ne_sep (this a ha)
    simp only [List.flatMap_cons]
    rw [show ('_' :: natDigits d ++ rest.flatMap (fun d => '_' :: natDigits d)) =
      '_' :: (natDigits d ++ rest.flatMap (fun d => '_' :: natDigits d)) from rfl]
    rw [splitOnChar_sep _ h, ih (natDigits d) hd]
    simp

theorem mapM_loop_parse : ∀ (ds acc : List Nat),
    List.mapM.loop parseNat (ds.map natDigits) acc = some (acc.reverse ++ ds) := by
  intro ds
  induction ds with
  | nil => intro acc; simp [List.mapM.loop]
  | cons d rest ih =>
    intro acc
    simp [List.mapM.loop, parseNat_natDigits, ih]

theorem mapM_parseNat_digits : ∀ ds : List Nat, (ds.map natDigits).mapM parseNat = some ds := by
  intro ds
  simpa using mapM_loop_parse ds []

theorem from_code_code_aux (k : FormKind) (ds : List Nat) :
    Form.from_code (Form.code ⟨k, ds⟩) = some ⟨k, ds⟩ := by
  cases k
  case Full =>
    have h1 : Form.code ⟨FormKind.Full, ds⟩ =
        ds.foldl (fun x d => x ++ "_" ++ natStr d) "full" := by
      simp [Form.code, Form.is_full]
    unfold Form.from_code
    rw [h1, show (ds.foldl (fun x d => x ++ "_" ++ natStr d) "full").data =
        ("full").data ++ ds.flatMap (fun d => '_' :: natDigits d) from
      code_foldl_data ds "full",
      splitOnChar_code ds ("full").data (by decide)]
    simp [mapM_loop_parse]
  case Part =>
    have h1 : Form.code ⟨FormKind.Part, ds⟩ =
        ds.foldl (fun x d => x ++ "_" ++ natStr d) "part" := by
      simp [Form.code, Form.is_full]
    unfold Form.from_code
    rw [h1, show (ds.foldl (fun x d => x ++ "_" ++ natStr d) "part").data =
        ("part").data ++ ds.flatMap (fun d => '_' :: natDigits d) from
      code_foldl_data ds "part",
      splitOnChar_code ds ("part").data (by decide)]
    simp [mapM_loop_parse]

/-- C6: for every valid form `f` (and in fact for every form),
`Form::from_code(f.code())` parses back to exactly `f`. -/
theorem C6_confirmed : ∀ f : Form, Form.from_code (Form.code f) = some f := by
  rintro ⟨k, ds⟩
  exact from_code_code_aux k ds

/-! ## Basic `as_form` lemmas -/

theorem asForm_hit (fuel : Nat) (t : TensorInfo) (c : FormCache) (form : Form) (tg : Target)
    (names : List String) (h : lookupForm c form = some names) :
    asForm (fuel + 1) t c form tg = some (names, c, tg) := by
  simp [asForm, asFormF, h]

theorem asForm_own_miss (fuel : Nat) (t : TensorInfo) (c : FormCache) (tg : Target)
    (h : lookupForm c t.nodeForm = none) :
    asForm (fuel + 1) t c t.nodeForm tg =
      some (ownNames t t.nodeForm, insertForm c t.nodeForm (ownNames t t.nodeForm), tg) := by
  simp [asForm, asFormF, h]

/-- `as_form` at the node's own form never touches the target, whatever the
cache holds. -/
theorem asForm_own_tg (fuel : Nat) (t : TensorInfo) (c : FormCache) (tg : Target) :
    ∃ names c', asForm (fuel + 1) t c t.nodeForm tg = some (names, c', tg) := by
  cases h : lookupForm c t.nodeForm with
  | some names => exact ⟨names, c, asForm_hit fuel t c _ tg names h⟩
  | none => exact ⟨_, _, asForm_own_miss fuel t c tg h⟩

/-- C5: for a tensor whose node has form `F` (`n` devices), a first request
of `as_form(F)` returns exactly `["<name>/replica_0:k", …,
"<name>/replica_{n-1}:k"]` and appends nothing to the target. -/
theorem C5_confirmed (fuel : Nat) (t : TensorInfo) (c : FormCache) (F : Form) (tg : Target)
    (hF : F = t.nodeForm) (hc : lookupForm c F = none) :
    asForm (fuel + 1) t c F tg =
      some ((List.range F.ndev).map
              (fun i => replicaStr t.raw.name i ++ ":" ++ natStr t.index),
            insertForm c F (ownNames t F), tg) := by
  subst hF
  simpa [ownNames] using asForm_own_miss fuel t c tg hc

/-- C5 witness at a concrete tensor. -/
theorem C5_witness :
    asForm 1 tA [] tA.nodeForm tg2 =
      some ((List.range tA.nodeForm.ndev).map
              (fun i => replicaStr tA.raw.name i ++ ":" ++ natStr tA.index),
            insertForm [] tA.nodeForm (ownNames tA tA.nodeForm), tg2) :=
  C5_confirmed 0 tA [] tA.nodeForm tg2 rfl (by decide)

/-! ## Target extension -/

theorem tgExt_refl (a : Target) : TgExt a a :=
  ⟨rfl, rfl, rfl, [], by simp⟩

theorem tgExt_trans {a b c : Target} (h1 : TgExt a b) (h2 : TgExt b c) : TgExt a c := by
  obtain ⟨d1, l1, p1, Δ1, n1⟩ := h1
  obtain ⟨d2, l2, p2, Δ2, n2⟩ := h2
  exact ⟨by rw [d2, d1], by rw [l2, l1], by rw [p2, p1], Δ1 ++ Δ2, by rw [n2, n1]; simp⟩

theorem tgExt_push (a : Target) (l : List NodeDef) :
    TgExt a { a with nodes := a.nodes ++ l } :=
  ⟨rfl, rfl, rfl, l, rfl⟩

theorem tgExt_mem {a b : Target} (h : TgExt a b) {nd : NodeDef} (hm : nd ∈ a.nodes) :
    nd ∈ b.nodes := by
  obtain ⟨-, -, -, Δ, hn⟩ := h
  rw [hn]
  exact List.mem_append_left _ hm

theorem ringShapes_ext (t : TensorInfo) (toF : Form) (devices : List String) (dv : AttrValue)
    (psize : Nat) (list : List String) :
    ∀ (is : List Nat) (tg : Target), TgExt tg (ringShapes t toF devices dv psize list is tg).2 := by
  intro is
  induction is with
  | nil => intro tg; exact tgExt_refl tg
  | cons i rest ih =>
    intro tg
    simp only [ringShapes]
    exact tgExt_trans (tgExt_push tg _) (ih _)

theorem ringFlats_ext (t : TensorInfo) (toF : Form) (devices : List String) (dv : AttrValue)
    (psize : Nat) (list : List String) :
    ∀ (is : List Nat) (tg : Target), TgExt tg (ringFlats t toF devices dv psize list is tg).2 := by
  intro is
  induction is with
  | nil => intro tg; exact tgExt_refl tg
  | cons i rest ih =>
    intro tg
    simp only [ringFlats]
    exact tgExt_trans (tgExt_push tg _) (ih _)

theorem ringChunks_ext (t : TensorInfo) (toF : Form) (devices : List String) (dv : AttrValue)
    (psize : Nat) (flats : List String) (n : Nat) :
    ∀ (is : List Nat) (tg : Target), TgExt tg (ringChunks t toF devices dv psize flats n is tg).2 := by
  intro is
  induction is with
  | nil => intro tg; exact tgExt_refl tg
  | cons i rest ih =>
    intro tg
    simp only [ringChunks]
    exact tgExt_trans (tgExt_push tg _) (ih _)

theorem ringAddStep_ext (t : TensorInfo) (toF : Form) (devices : List String) (dv : AttrValue)
    (psize n round : Nat) :
    ∀ (is : List Nat) (chunks : List (List String)) (tg : Target),
      TgExt tg (ringAddStep t toF devices dv psize n round is chunks tg).2 := by
  intro is
  induction is with
  | nil => intro chunks tg; exact tgExt_refl tg
  | cons i rest ih =>
    intro chunks tg
    simp only [ringAddStep]
    exact tgExt_trans (tgExt_push tg _) (ih _ _)

theorem ringAddRounds_ext (t : TensorInfo) (toF : Form) (devices : List String) (dv : AttrValue)
    (psize n : Nat) :
    ∀ (rounds : List Nat) (chunks : List (List String)) (tg : Target),
      TgExt tg (ringAddRounds t toF devices dv psize n rounds chunks tg).2 := by
  intro rounds
  induction rounds with
  | nil => intro chunks tg; exact tgExt_refl tg
  | cons r rest ih =>
    intro chunks tg
    simp only [ringAddRounds]
    exact tgExt_trans (ringAddStep_ext t toF devices dv psize n r _ chunks tg) (ih _ _)

theorem ringIdStep_ext (t : TensorInfo) (toF : Form) (devices : List String) (dv : AttrValue)
    (psize n round : Nat) :
    ∀ (is : List Nat) (chunks : List (List String)) (tg : Target),
      TgExt tg (ringIdStep t toF devices dv psize n round is chunks tg).2 := by
  intro is
  induction is with
  | nil => intro chunks tg; exact tgExt_refl tg
  | cons i rest ih =>
    intro chunks tg
    simp only [ringIdStep]
    exact tgExt_trans (tgExt_push tg _) (ih _ _)

theorem ringIdRounds_ext (t : TensorInfo) (toF : Form) (devices : List String) (dv : AttrValue)
    (psize n : Nat) :
    ∀ (rounds : List Nat) (chunks : List (List String)) (tg : Target),
      TgExt tg (ringIdRounds t toF devices dv psize n rounds chunks tg).2 := by
  intro rounds
  induction rounds with
  | nil => intro chunks tg; exact tgExt_refl tg
  | cons r rest ih =>
    intro chunks tg
    simp only [ringIdRounds]
    exact tgExt_trans (ringIdStep_ext t toF devices dv psize n r _ chunks tg) (ih _ _)

theorem ringConcats_ext (t : TensorInfo) (toF : Form) (devices : List String) (dv : AttrValue)
    (psize n : Nat) :
    ∀ (chunks : List (List String)) (i : Nat) (tg : Target),
      TgExt tg (ringConcats t toF devices dv psize n i chunks tg).2 := by
  intro chunks
  induction chunks with
  | nil => intro i tg; exact tgExt_refl tg
  | cons chunk rest ih =>
    intro i tg
    simp only [ringConcats]
    exact tgExt_trans (tgExt_push tg _) (ih _ _)

theorem ringReshapes_ext (t : TensorInfo) (toF : Form) (devices : List String) (dv : AttrValue)
    (psize : Nat) :
    ∀ (ps : List (String × String)) (i : Nat) (tg : Target),
      TgExt tg (ringReshapes t toF devices dv psize i ps tg).2 := by
  intro ps
  induction ps with
  | nil => intro i tg; exact tgExt_refl tg
  | cons p rest ih =>
    intro i tg
    obtain ⟨concat, shape⟩ := p
    simp only [ringReshapes]
    exact tgExt_trans (tgExt_push tg _) (ih _ _)

theorem resplitConcats_ext (t : TensorInfo) (fm toF : Form) (dv : AttrValue) (sz : Nat) :
    ∀ (chunks : List (List String)) (i : Nat) (tg : Target),
      TgExt tg (resplitConcats t fm toF dv sz i chunks tg).2 := by
  intro chunks
  induction chunks with
  | nil => intro i tg; exact tgExt_refl tg
  | cons chunk rest ih =>
    intro i tg
    simp only [resplitConcats]
    exact tgExt_trans (tgExt_push tg _) (ih _ _)

theorem resplitSplits_ext (t : TensorInfo) (fm toF : Form) (dv : AttrValue) (sz g : Nat) :
    ∀ (ps : List ((Nat × String) × List Nat)) (i : Nat) (tg : Target),
      TgExt tg (resplitSplits t fm toF dv sz g i ps tg).2 := by
  intro ps
  induction ps with
  | nil => intro i tg; exact tgExt_refl tg
  | cons p rest ih =>
    intro i tg
    obtain ⟨⟨place, concated⟩, devs⟩ := p
    simp only [resplitSplits]
    exact tgExt_trans (tgExt_push tg _) (ih _ _)

theorem ncclLoop_ext (af : AsFormFn) (t : TensorInfo) (fm toF : Form)
    (haf : ∀ c' f' tg' r', af c' f' tg' = some r' → TgExt tg' r'.2.2) :
    ∀ (is : List Nat) (i : Nat) (c : FormCache) (tg : Target) (res : FormCache × Target),
      ncclLoop af t fm toF i is c tg = some res → TgExt tg res.2 := by
  intro is
  induction is with
  | nil =>
    intro i c tg res h
    simp only [ncclLoop] at h
    cases h
    exact tgExt_refl tg
  | cons d rest ih =>
    intro i c tg res h
    simp only [ncclLoop] at h
    split at h
    · exact absurd h (by simp)
    · split at h
      · exact absurd h (by simp)
      · rename_i names c1 tg1 heq
        exact tgExt_trans (tgExt_trans (haf _ _ _ _ heq) (tgExt_push tg1 _)) (ih _ _ _ _ h)

theorem aggregate_sum_body_ext (af : AsFormFn) (t : TensorInfo) (c : FormCache)
    (fm toF : Form) (tg : Target) (r : List String × FormCache × Target)
    (haf : ∀ c' f' tg' r', af c' f' tg' = some r' → TgExt tg' r'.2.2)
    (h : aggregate_sum_body af t c fm toF tg = some r) : TgExt tg r.2.2 := by
  simp only [aggregate_sum_body] at h
  split at h
  · exact absurd h (by simp)
  · split at h
    · exact absurd h (by simp)
    · rename_i names c1 tg1 heq
      split at h
      · exact absurd h (by simp)
      · cases h
        exact tgExt_trans (haf _ _ _ _ heq) (tgExt_push tg1 _)

theorem aggregate_cat_body_ext (af : AsFormFn) (t : TensorInfo) (c : FormCache)
    (fm toF : Form) (tg : Target) (r : List String × FormCache × Target)
    (haf : ∀ c' f' tg' r', af c' f' tg' = some r' → TgExt tg' r'.2.2)
    (h : aggregate_cat_body af t c fm toF tg = some r) : TgExt tg r.2.2 := by
  simp only [aggregate_cat_body] at h
  split at h
  · exact absurd h (by simp)
  · rename_i names c1 tg1 heq
    split at h
    · exact absurd h (by simp)
    · split at h
      · exact absurd h (by simp)
      · cases h
        exact tgExt_trans (haf _ _ _ _ heq) (tgExt_push tg1 _)

theorem replicate_broadcast_body_ext (af : AsFormFn) (t : TensorInfo) (c : FormCache)
    (fm toF : Form) (tg : Target) (r : List String × FormCache × Target)
    (haf : ∀ c' f' tg' r', af c' f' tg' = some r' → TgExt tg' r'.2.2)
    (h : replicate_broadcast_body af t c fm toF tg = some r) : TgExt tg r.2.2 := by
  simp only [replicate_broadcast_body] at h
  split at h
  · exact absurd h (by simp)
  · rename_i names c1 tg1 heq
    cases h
    exact haf _ _ _ (names, c1, tg1) heq

theorem replicate_split_body_ext (af : AsFormFn) (t : TensorInfo) (c : FormCache)
    (fm toF : Form) (tg : Target) (r : List String × FormCache × Target)
    (haf : ∀ c' f' tg' r', af c' f' tg' = some r' → TgExt tg' r'.2.2)
    (h : replicate_split_body af t c fm toF tg = some r) : TgExt tg r.2.2 := by
  simp only [replicate_split_body] at h
  split at h
  · exact absurd h (by simp)
  · rename_i names c1 tg1 heq
    split at h
    · exact absurd h (by simp)
    · split at h
      · exact absurd h (by simp)
      · cases h
        exact tgExt_trans (haf _ _ _ _ heq) (tgExt_push tg1 _)

theorem resplit_body_ext (af : AsFormFn) (t : TensorInfo) (c : FormCache)
    (fm toF : Form) (tg : Target) (r : List String × FormCache × Target)
    (haf : ∀ c' f' tg' r', af c' f' tg' = some r' → TgExt tg' r'.2.2)
    (h : resplit_body af t c fm toF tg = some r) : TgExt tg r.2.2 := by
  simp only [resplit_body] at h
  split at h
  · exact absurd h (by simp)
  · rename_i names c1 tg1 heq
    split at h
    · exact absurd h (by simp)
    · split at h
      · exact absurd h (by simp)
      · cases h
        refine tgExt_trans (haf _ _ _ _ heq) ?_
        refine tgExt_trans ?_ (resplitSplits_ext _ _ _ _ _ _ _ _ _)
        exact resplitConcats_ext _ _ _ _ _ _ _ _

theorem all_reduce_nccl_body_ext (af : AsFormFn) (t : TensorInfo) (c : FormCache)
    (fm toF : Form) (tg : Target) (r : List String × FormCache × Target)
    (haf : ∀ c' f' tg' r', af c' f' tg' = some r' → TgExt tg' r'.2.2)
    (h : all_reduce_nccl_body af t c fm toF tg = some r) : TgExt tg r.2.2 := by
  simp only [all_reduce_nccl_body] at h
  split at h
  · exact absurd h (by simp)
  · rename_i c1 tg1 heq
    cases h
    exact ncclLoop_ext af t fm toF haf _ _ _ _ _ heq

theorem all_reduce_ring_body_ext (af : AsFormFn) (t : TensorInfo) (c : FormCache)
    (fm toF : Form) (tg : Target) (r : List String × FormCache × Target)
    (haf : ∀ c' f' tg' r', af c' f' tg' = some r' → TgExt tg' r'.2.2)
    (h : all_reduce_ring_body af t c fm toF tg = some r) : TgExt tg r.2.2 := by
  simp only [all_reduce_ring_body] at h
  split at h
  · exact absurd h (by simp)
  · split at h
    · exact absurd h (by simp)
    · split at h
      · exact absurd h (by simp)
      · rename_i list c1 tg1 heq
        cases h
        refine tgExt_trans (haf _ _ _ _ heq) ?_
        refine tgExt_trans ?_ (ringReshapes_ext _ _ _ _ _ _ _ _)
        refine tgExt_trans ?_ (ringConcats_ext _ _ _ _ _ _ _ _ _)
        refine tgExt_trans ?_ (ringIdRounds_ext _ _ _ _ _ _ _ _ _)
        refine tgExt_trans ?_ (ringAddRounds_ext _ _ _ _ _ _ _ _ _)
        refine tgExt_trans ?_ (ringChunks_ext _ _ _ _ _ _ _ _ _)
        refine tgExt_trans ?_ (ringFlats_ext _ _ _ _ _ _ _ _)
        exact ringShapes_ext _ _ _ _ _ _ _ _

theorem impl_ext_of_body {impl body : AsFormFn → TensorInfo → FormCache → Form → Form →
      Target → Option (List String × FormCache × Target)}
    (hib : ∀ af t c fm toF tg, impl af t c fm toF tg = body af t c fm toF tg ∨
      impl af t c fm toF tg = none)
    (hbody : ∀ af t c fm toF tg r,
      (∀ c' f' tg' r', af c' f' tg' = some r' → TgExt tg' r'.2.2) →
      body af t c fm toF tg = some r → TgExt tg r.2.2)
    (af : AsFormFn) (t : TensorInfo) (c : FormCache) (fm toF : Form) (tg : Target)
    (r : List String × FormCache × Target)
    (haf : ∀ c' f' tg' r', af c' f' tg' = some r' → TgExt tg' r'.2.2)
    (h : impl af t c fm toF tg = some r) : TgExt tg r.2.2 := by
  rcases hib af t c fm toF tg with he | he
  · exact hbody af t c fm toF tg r haf (he ▸ h)
  · rw [he] at h; exact absurd h (by simp)

theorem asForm_ext :
    ∀ (fuel : Nat) (t : TensorInfo) (c : FormCache) (form : Form) (tg : Target)
      (r : List String × FormCache × Target),
      asForm fuel t c form tg = some r → TgExt tg r.2.2 := by
  intro fuel
  induction fuel with
  | zero => intro t c form tg r h; exact absurd h (by simp [asForm])
  | succ fuel ih =>
    intro t c form tg r h
    have haf : ∀ c' f' tg' r',
        (fun c' f' tg' => asForm fuel t c' f' tg') c' f' tg' = some r' → TgExt tg' r'.2.2 :=
      fun c' f' tg' r' hh => ih t c' f' tg' r' hh
    simp only [asForm, asFormF] at h
    split at h
    · cases h; exact tgExt_refl tg
    · split at h
      · exact absurd h (by simp)
      · rename_i names c1 tg1 heq
        cases h
        split at heq
        · cases heq; exact tgExt_refl tg
        · split at heq
          · exact impl_ext_of_body
              (fun af t c fm toF tg => by
                unfold replicate_broadcast_impl
                split
                · exact Or.inl rfl
                · exact Or.inr rfl)
              (fun af t c fm toF tg r haf hb =>
                replicate_broadcast_body_ext af t c fm toF tg r haf hb)
              _ t c _ _ tg (names, c1, tg1) haf heq
          · exact impl_ext_of_body
              (fun af t c fm toF tg => by
                unfold replicate_split_impl
                split
                · exact Or.inl rfl
                · exact Or.inr rfl)
              (fun af t c fm toF tg r haf hb =>
                replicate_split_body_ext af t c fm toF tg r haf hb)
              _ t c _ _ tg (names, c1, tg1) haf heq
          · exact impl_ext_of_body
              (fun af t c fm toF tg => by
                unfold aggregate_cat_impl
                split
                · exact Or.inl rfl
                · exact Or.inr rfl)
              (fun af t c fm toF tg r haf hb =>
                aggregate_cat_body_ext af t c fm toF tg r haf hb)
              _ t c _ _ tg (names, c1, tg1) haf heq
          · exact impl_ext_of_body
              (fun af t c fm toF tg => by
                unfold resplit_impl
                split
                · exact Or.inl rfl
                · exact Or.inr rfl)
              (fun af t c fm toF tg r haf hb =>
                resplit_body_ext af t c fm toF tg r haf hb)
              _ t c _ _ tg (names, c1, tg1) haf heq

theorem ownNames_getD (t : TensorInfo) (form : Form) (i : Nat) (h : i < form.ndev) :
    (ownNames t form).getD i "" = replicaStr t.raw.name i ++ ":" ++ natStr t.index := by
  simp [ownNames, List.getD, List.getElem?_map, List.getElem?_range, h]

theorem valid_pos {f : Form} (h : f.valid = true) : 0 < f.ndev := by
  rcases f with ⟨k, ds⟩
  cases ds with
  | nil => simp [Form.valid] at h
  | cons a l => simp [Form.ndev]

/-- C7: a Full→Full conversion (broadcast, invoked as `as_form` does, at the
producer's own form) emits nothing, and maps each target device `d` to the
producer's replica `p` when `d` sits at position `p` of the producer's
device list, and to replica `0` otherwise. -/
theorem C7_confirmed (fuel : Nat) (t : TensorInfo) (c : FormCache) (fm toF : Form)
    (tg : Target) (hfm : fm = t.nodeForm) (hc : lookupForm c fm = none)
    (hv : fm.valid = true) (htv : toF.valid = true)
    (hff : fm.is_full = true) (htf : toF.is_full = true) :
    replicate_broadcast (fuel + 1) t c fm toF tg =
      some (toF.devices.map (fun d =>
              match fm.devices.findIdx? (fun x => x = d) with
              | some p => replicaStr t.raw.name p ++ ":" ++ natStr t.index
              | none => replicaStr t.raw.name 0 ++ ":" ++ natStr t.index),
            insertForm c fm (ownNames t fm), tg) := by
  subst hfm
  unfold replicate_broadcast replicate_broadcast_impl
  rw [if_pos (by simp [hv, htv, hff, htf])]
  unfold replicate_broadcast_body
  simp only [asForm_own_miss fuel t c tg hc]
  have hlen : ∀ {p : Nat}, p < t.nodeForm.ndev →
      (ownNames t t.nodeForm).getD p "" = replicaStr t.raw.name p ++ ":" ++ natStr t.index :=
    fun hp => ownNames_getD t t.nodeForm _ hp
  refine congrArg some ?_
  refine congrArg (fun l => (l, insertForm c t.nodeForm (ownNames t t.nodeForm), tg)) ?_
  refine List.map_congr_left ?_
  intro d _
  cases hidx : t.nodeForm.devices.findIdx? (fun x => x = d) with
  | some p =>
    have hp : p < t.nodeForm.ndev :=
      (List.findIdx?_eq_some_iff_findIdx_eq.mp hidx).1
    simp only [hlen hp]
  | none =>
    simp only [hlen (valid_pos hv)]

/-- C7 witness: broadcast of a `full_0` producer to `full_0_1`. -/
theorem C7_witness :
    replicate_broadcast 1 tF [] tF.nodeForm ⟨.Full, [0, 1]⟩ tg2 =
      some ((⟨.Full, [0, 1]⟩ : Form).devices.map (fun d =>
              match tF.nodeForm.devices.findIdx? (fun x => x = d) with
              | some p => replicaStr tF.raw.name p ++ ":" ++ natStr tF.index
              | none => replicaStr tF.raw.name 0 ++ ":" ++ natStr tF.index),
            insertForm [] tF.nodeForm (ownNames tF tF.nodeForm), tg2) :=
  C7_confirmed 0 tF [] tF.nodeForm ⟨.Full, [0, 1]⟩ tg2 rfl (by decide) (by decide)
    (by decide) (by decide) (by decide)

/-- C9: each transition builder panics (returns `none`) exactly when its
leading assertion fails, and under the claimed precondition the assertion
passes and execution proceeds into the builder's body.  The preconditions
are: part→full for `aggregate_sum`/`aggregate_cat`, full→part for
`replicate_split`, part→part for `resplit`, and part→full with equal device
lists for the two all-reduce builders (validity required throughout). -/
theorem C9_confirmed (fuel : Nat) (t : TensorInfo) (c : FormCache) (fm toF : Form)
    (tg : Target) :
    (¬(fm.valid = true ∧ toF.valid = true ∧ fm.is_part = true ∧ toF.is_full = true) →
      aggregate_sum fuel t c fm toF tg = none ∧ aggregate_cat fuel t c fm toF tg = none) ∧
    ((fm.valid = true ∧ toF.valid = true ∧ fm.is_part = true ∧ toF.is_full = true) →
      aggregate_sum fuel t c fm toF tg =
        aggregate_sum_body (fun c' f' tg' => asForm fuel t c' f' tg') t c fm toF tg ∧
      aggregate_cat fuel t c fm toF tg =
        aggregate_cat_body (fun c' f' tg' => asForm fuel t c' f' tg') t c fm toF tg) ∧
    (¬(fm.valid = true ∧ toF.valid = true ∧ fm.is_full = true ∧ toF.is_part = true) →
      replicate_split fuel t c fm toF tg = none) ∧
    ((fm.valid = true ∧ toF.valid = true ∧ fm.is_full = true ∧ toF.is_part = true) →
      replicate_split fuel t c fm toF tg =
        replicate_split_body (fun c' f' tg' => asForm fuel t c' f' tg') t c fm toF tg) ∧
    (¬(fm.valid = true ∧ toF.valid = true ∧ fm.is_part = true ∧ toF.is_part = true) →
      resplit fuel t c fm toF tg = none) ∧
    ((fm.valid = true ∧ toF.valid = true ∧ fm.is_part = true ∧ toF.is_part = true) →
      resplit fuel t c fm toF tg =
        resplit_body (fun c' f' tg' => asForm fuel t c' f' tg') t c fm toF tg) ∧
    (¬(fm.valid = true ∧ toF.valid = true ∧ fm.is_part = true ∧ toF.is_full = true ∧
        fm.devices = toF.devices) →
      all_reduce_nccl fuel t c fm toF tg = none ∧ all_reduce_ring fuel t c fm toF tg = none) ∧
    ((fm.valid = true ∧ toF.valid = true ∧ fm.is_part = true ∧ toF.is_full = true ∧
        fm.devices = toF.devices) →
      all_reduce_nccl fuel t c fm toF tg =
        all_reduce_nccl_body (fun c' f' tg' => asForm fuel t c' f' tg') t c fm toF tg ∧
      all_reduce_ring fuel t c fm toF tg =
        all_reduce_ring_body (fun c' f' tg' => asForm fuel t c' f' tg') t c fm toF tg) := by
  have hpf : ((fm.valid && toF.valid && fm.is_part && toF.is_full) = true) ↔
      (fm.valid = true ∧ toF.valid = true ∧ fm.is_part = true ∧ toF.is_full = true) := by
    simp [Bool.and_eq_true, and_assoc]
  have hfp : ((fm.valid && toF.valid && fm.is_full && toF.is_part) = true) ↔
      (fm.valid = true ∧ toF.valid = true ∧ fm.is_full = true ∧ toF.is_part = true) := by
    simp [Bool.and_eq_true, and_assoc]
  have hpp : ((fm.valid && toF.valid && fm.is_part && toF.is_part) = true) ↔
      (fm.valid = true ∧ toF.valid = true ∧ fm.is_part = true ∧ toF.is_part = true) := by
    simp [Bool.and_eq_true, and_assoc]
  have har : ((fm.valid && toF.valid && fm.is_part && toF.is_full &&
      (fm.devices == toF.devices)) = true) ↔
      (fm.valid = true ∧ toF.valid = true ∧ fm.is_part = true ∧ toF.is_full = true ∧
        fm.devices = toF.devices) := by
    simp [Bool.and_eq_true, and_assoc]
  refine ⟨?_, ?_, ?_, ?_, ?_, ?_, ?_, ?_⟩
  · intro h
    constructor
    · unfold aggregate_sum aggregate_sum_impl
      rw [if_neg (fun hb => h (hpf.mp hb))]
    · unfold aggregate_cat aggregate_cat_impl
      rw [if_neg (fun hb => h (hpf.mp hb))]
  · intro h
    constructor
    · unfold aggregate_sum aggregate_sum_impl
      rw [if_pos (hpf.mpr h)]
    · unfold aggregate_cat aggregate_cat_impl
      rw [if_pos (hpf.mpr h)]
  · intro h
    unfold replicate_split replicate_split_impl
    rw [if_neg (fun hb => h (hfp.mp hb))]
  · intro h
    unfold replicate_split replicate_split_impl
    rw [if_pos (hfp.mpr h)]
  · intro h
    unfold resplit resplit_impl
    rw [if_neg (fun hb => h (hpp.mp hb))]
  · intro h
    unfold resplit resplit_impl
    rw [if_pos (hpp.mpr h)]
  · intro h
    constructor
    · unfold all_reduce_nccl all_reduce_nccl_impl
      rw [if_neg (fun hb => h (har.mp hb))]
    · unfold all_reduce_ring all_reduce_ring_impl
      rw [if_neg (fun hb => h (har.mp hb))]
  · intro h
    constructor
    · unfold all_reduce_nccl all_reduce_nccl_impl
      rw [if_pos (har.mpr h)]
    · unfold all_reduce_ring all_reduce_ring_impl
      rw [if_pos (har.mpr h)]

/-- C9 witness: a Full→Full pair violates every builder's precondition, so
all six builders panic on it; and the part→full precondition admits
`aggregate_sum` into its body. -/
theorem C9_witness :
    aggregate_sum 2 tA [] ⟨.Full, [0, 1]⟩ ⟨.Full, [0, 1]⟩ tg2 = none ∧
    aggregate_sum 2 tA [] tA.nodeForm ⟨.Full, [0, 1]⟩ tg2 =
      aggregate_sum_body (fun c' f' tg' => asForm 2 tA c' f' tg') tA []
        tA.nodeForm ⟨.Full, [0, 1]⟩ tg2 :=
  ⟨((C9_confirmed 2 tA [] ⟨.Full, [0, 1]⟩ ⟨.Full, [0, 1]⟩ tg2).1 (by decide)).1,
   ((C9_confirmed 2 tA [] tA.nodeForm ⟨.Full, [0, 1]⟩ tg2).2.1 (by decide)).1⟩

theorem lookupForm_insert (c : FormCache) (f : Form) (ns : List String) :
    lookupForm (insertForm c f ns) f = some ns := by
  simp [lookupForm, insertForm]

theorem mkNcclNode_fields (t : TensorInfo) (fm toF : Form) (dv : AttrValue)
    (dev inp : String) (i : Nat) :
    (mkNcclNode t fm toF dv dev inp i).op = "NcclAllReduce" ∧
    (mkNcclNode t fm toF dv dev inp i).name =
      t.raw.name ++ "/" ++ natStr t.index ++ "_" ++ toF.code ++ "/aux_nccl_" ++ natStr i ∧
    (mkNcclNode t fm toF dv dev inp i).device = dev ∧
    (mkNcclNode t fm toF dv dev inp i).input = [inp] ∧
    getAttr (mkNcclNode t fm toF dv dev inp i) "reduction" = some (.s "sum") ∧
    getAttr (mkNcclNode t fm toF dv dev inp i) "T" = some dv ∧
    getAttr (mkNcclNode t fm toF dv dev inp i) "num_devices" = some (.i fm.ndev) ∧
    getAttr (mkNcclNode t fm toF dv dev inp i) "shared_name" = some (.s t.original_name) := by
  refine ⟨rfl, rfl, rfl, rfl, ?_, ?_, ?_, ?_⟩ <;>
    simp [mkNcclNode, make_node, set_belong_to, getAttr, attrInsert]

theorem ncclLoop_spec (fuel : Nat) (t : TensorInfo) (toF : Form) (dv : AttrValue)
    (hdv : get_dtype t.raw = some dv) (L : List String) :
    ∀ (is : List Nat) (i0 : Nat) (c : FormCache) (tg : Target),
      lookupForm c t.nodeForm = some L →
      ∃ Δ, ncclLoop (fun c' f' tg' => asForm (fuel + 1) t c' f' tg') t t.nodeForm toF
            i0 is c tg = some (c, { tg with nodes := tg.nodes ++ Δ }) ∧
        Δ.length = is.length ∧
        ∀ j, j < is.length →
          Δ.get? j = some (mkNcclNode t t.nodeForm toF dv (tg.devices.getD (is.getD j 0) "")
            (L.getD (i0 + j) "" ++ ":" ++ natStr t.index) (i0 + j)) := by
  intro is
  induction is with
  | nil =>
    intro i0 c tg hc
    refine ⟨[], ?_, by simp, by simp⟩
    simp [ncclLoop]
  | cons d rest ih =>
    intro i0 c tg hc
    obtain ⟨Δ', h1, h2, h3⟩ := ih (i0 + 1) c { tg with nodes := tg.nodes ++
      [mkNcclNode t t.nodeForm toF dv (tg.devices.getD d "")
        (L.getD i0 "" ++ ":" ++ natStr t.index) i0] } hc
    refine ⟨mkNcclNode t t.nodeForm toF dv (tg.devices.getD d "")
      (L.getD i0 "" ++ ":" ++ natStr t.index) i0 :: Δ', ?_, by simp [h2], ?_⟩
    · simp only [ncclLoop, hdv, asForm_hit fuel t c t.nodeForm tg L hc]
      refine Eq.trans ?_ (Eq.trans h1 ?_)
      · rfl
      · simp [mkNcclNode]
    · intro j hj
      cases j with
      | zero => simp
      | succ j =>
        have := h3 j (by simpa using hj)
        simpa [Nat.add_assoc, Nat.add_comm 1 j, Nat.add_left_comm] using this

/-- C3 counterexample: on a concrete part→full all-reduce, the emitted
`NcclAllReduce` consumes `"A/replica_0:0:0"` — the 0-th entry of
`as_form(from)` (which is `"A/replica_0:0"`) with an extra `":<port>"`
appended — not the entry itself as the claim states. -/
theorem C3_counterexample :
    (all_reduce_nccl 2 tA [] tA.nodeForm ⟨.Full, [0, 1]⟩ tg2).isSome = true ∧
    (((all_reduce_nccl 2 tA [] tA.nodeForm ⟨.Full, [0, 1]⟩ tg2).getD
        ([], [], tg2)).2.2.nodes.getD 0 ndDefault).input = ["A/replica_0:0:0"] ∧
    (ownNames tA tA.nodeForm).getD 0 "" = "A/replica_0:0" ∧
    ("A/replica_0:0:0" : String) ≠ "A/replica_0:0" := by
  refine ⟨by decide, by decide, by decide, by decide⟩

/-- C3 (amended): `all_reduce_nccl` from a part form (the producer's own)
into a full form over the same device list emits exactly `ndev` many
`NcclAllReduce` nodes, the `i`-th placed on device `i` of the set, with
`reduction="sum"`, `num_devices=n`, `shared_name` the original tensor name,
whose sole input is the `i`-th entry of `as_form(from)` *with an extra
`":<port>"` appended*; the returned references are the `n` nccl node names
in device-list order. -/
theorem C3_amended (fuel : Nat) (t : TensorInfo) (c : FormCache) (fm toF : Form)
    (tg : Target) (dv : AttrValue)
    (hfm : fm = t.nodeForm) (hc : lookupForm c fm = none)
    (hdv : get_dtype t.raw = some dv)
    (hv : fm.valid = true) (htv : toF.valid = true) (hp : fm.is_part = true)
    (hf : toF.is_full = true) (hd : fm.devices = toF.devices) :
    ∃ Δ, all_reduce_nccl (fuel + 1) t c fm toF tg =
        some ((List.range fm.ndev).map (fun i =>
                t.raw.name ++ "/" ++ natStr t.index ++ "_" ++ toF.code ++
                  "/aux_nccl_" ++ natStr i),
              insertForm c fm (ownNames t fm),
              { tg with nodes := tg.nodes ++ Δ }) ∧
      Δ.length = fm.ndev ∧
      ∀ i, i < fm.ndev →
        ∃ nd, Δ.get? i = some nd ∧
          nd.op = "NcclAllReduce" ∧
          nd.name = t.raw.name ++ "/" ++ natStr t.index ++ "_" ++ toF.code ++
            "/aux_nccl_" ++ natStr i ∧
          nd.device = tg.devices.getD (fm.devices.getD i 0) "" ∧
          getAttr nd "reduction" = some (.s "sum") ∧
          getAttr nd "num_devices" = some (.i fm.ndev) ∧
          getAttr nd "shared_name" = some (.s t.original_name) ∧
          nd.input =
            [replicaStr t.raw.name i ++ ":" ++ natStr t.index ++ ":" ++ natStr t.index] := by
  subst hfm
  unfold all_reduce_nccl all_reduce_nccl_impl
  rw [if_pos (by simp [hv, htv, hp, hf, hd])]
  unfold all_reduce_nccl_body
  rcases hdevs : t.nodeForm.devices with _ | ⟨d, ds⟩
  · exact absurd (valid_pos hv) (by simp [Form.ndev, hdevs])
  have hnd : t.nodeForm.ndev = ds.length + 1 := by simp [Form.ndev, hdevs]
  obtain ⟨Δ', h1, h2, h3⟩ := ncclLoop_spec fuel t toF dv hdv (ownNames t t.nodeForm) ds 1
    (insertForm c t.nodeForm (ownNames t t.nodeForm))
    { tg with nodes := tg.nodes ++
      [mkNcclNode t t.nodeForm toF dv (tg.devices.getD d "")
        ((ownNames t t.nodeForm).getD 0 "" ++ ":" ++ natStr t.index) 0] }
    (lookupForm_insert c t.nodeForm (ownNames t t.nodeForm))
  refine ⟨mkNcclNode t t.nodeForm toF dv (tg.devices.getD d "")
    ((ownNames t t.nodeForm).getD 0 "" ++ ":" ++ natStr t.index) 0 :: Δ', ?_, ?_, ?_⟩
  · simp only [ncclLoop, hdv, asForm_own_miss fuel t c tg hc]
    show (match ncclLoop (fun c' f' tg' => asForm (fuel + 1) t c' f' tg') t t.nodeForm toF 1 ds
          (insertForm c t.nodeForm (ownNames t t.nodeForm))
          { tg with nodes := tg.nodes ++
            [mkNcclNode t t.nodeForm toF dv (tg.devices.getD d "")
              ((ownNames t t.nodeForm).getD 0 "" ++ ":" ++ natStr t.index) 0] } with
        | none => none
        | some (c1, tg1) => some ((List.range t.nodeForm.ndev).map (fun i =>
            t.raw.name ++ "/" ++ natStr t.index ++ "_" ++ toF.code ++
              "/aux_nccl_" ++ natStr i), c1, tg1)) =
      some ((List.range t.nodeForm.ndev).map (fun i =>
          t.raw.name ++ "/" ++ natStr t.index ++ "_" ++ toF.code ++
            "/aux_nccl_" ++ natStr i),
        insertForm c t.nodeForm (ownNames t t.nodeForm),
        { tg with nodes := tg.nodes ++
          (mkNcclNode t t.nodeForm toF dv (tg.devices.getD d "")
            ((ownNames t t.nodeForm).getD 0 "" ++ ":" ++ natStr t.index) 0 :: Δ') })
    rw [h1]
    simp
  · simp [h2, hnd]
  · intro i hi
    cases i with
    | zero =>
      refine ⟨mkNcclNode t t.nodeForm toF dv (tg.devices.getD d "")
        ((ownNames t t.nodeForm).getD 0 "" ++ ":" ++ natStr t.index) 0, rfl, ?_⟩
      have hfields := mkNcclNode_fields t t.nodeForm toF dv (tg.devices.getD d "")
        ((ownNames t t.nodeForm).getD 0 "" ++ ":" ++ natStr t.index) 0
      obtain ⟨f1, f2, f3, f4, f5, f6, f7, f8⟩ := hfields
      refine ⟨f1, f2, ?_, f5, f7, f8, ?_⟩
      · rw [f3]
        rfl
      · rw [f4, ownNames_getD t t.nodeForm 0 (valid_pos hv)]
    | succ j =>
      have hj : j < ds.length := by
        have := h2
        omega
      refine ⟨mkNcclNode t t.nodeForm toF dv (tg.devices.getD (ds.getD j 0) "")
        ((ownNames t t.nodeForm).getD (1 + j) "" ++ ":" ++ natStr t.index) (1 + j), ?_, ?_⟩
      · rw [List.get?_cons_succ]
        exact h3 j hj
      have hfields := mkNcclNode_fields t t.nodeForm toF dv
        (tg.devices.getD (ds.getD j 0) "")
        ((ownNames t t.nodeForm).getD (1 + j) "" ++ ":" ++ natStr t.index) (1 + j)
      obtain ⟨f1, f2, f3, f4, f5, f6, f7, f8⟩ := hfields
      have hij : 1 + j = j + 1 := Nat.add_comm 1 j
      refine ⟨f1, ?_, ?_, f5, f7, f8, ?_⟩
      · rw [f2, hij]
      · rw [f3]
        simp
      · rw [f4, ownNames_getD t t.nodeForm (1 + j) (by omega), hij]

/-- C3 witness: the amended all-reduce law at a concrete two-device tensor. -/
theorem C3_witness :
    ∃ Δ, all_reduce_nccl 2 tA [] tA.nodeForm ⟨.Full, [0, 1]⟩ tg2 =
        some ((List.range tA.nodeForm.ndev).map (fun i =>
                tA.raw.name ++ "/" ++ natStr tA.index ++ "_" ++
                  (⟨.Full, [0, 1]⟩ : Form).code ++ "/aux_nccl_" ++ natStr i),
              insertForm [] tA.nodeForm (ownNames tA tA.nodeForm),
              { tg2 with nodes := tg2.nodes ++ Δ }) ∧
      Δ.length = tA.nodeForm.ndev ∧
      ∀ i, i < tA.nodeForm.ndev →
        ∃ nd, Δ.get? i = some nd ∧
          nd.op = "NcclAllReduce" ∧
          nd.name = tA.raw.name ++ "/" ++ natStr tA.index ++ "_" ++
            (⟨.Full, [0, 1]⟩ : Form).code ++ "/aux_nccl_" ++ natStr i ∧
          nd.device = tg2.devices.getD (tA.nodeForm.devices.getD i 0) "" ∧
          getAttr nd "reduction" = some (.s "sum") ∧
          getAttr nd "num_devices" = some (.i tA.nodeForm.ndev) ∧
          getAttr nd "shared_name" = some (.s tA.original_name) ∧
          nd.input =
            [replicaStr tA.raw.name i ++ ":" ++ natStr tA.index ++ ":" ++ natStr tA.index] :=
  C3_amended 1 tA [] tA.nodeForm ⟨.Full, [0, 1]⟩ tg2 (.type .DT_FLOAT) rfl (by decide)
    (by decide) (by decide) (by decide) (by decide) (by decide) (by decide)

/-! ## Naming-pattern lemmas -/

theorem lit_sum : ("/aux_sum" : String) = "/aux_" ++ "sum" := rfl
theorem lit_concat_axis : ("/aux_concat/axis" : String) = "/aux_" ++ "concat/axis" := rfl
theorem lit_concat_concat : ("/aux_concat/concat" : String) = "/aux_" ++ "concat/concat" := rfl
theorem lit_split_dim : ("/aux_split/dim" : String) = "/aux_" ++ "split/dim" := rfl
theorem lit_split_split : ("/aux_split/split" : String) = "/aux_" ++ "split/split" := rfl
theorem lit_resplit : ("/aux_resplit_" : String) = "/aux_" ++ "resplit_" := rfl
theorem lit_nccl : ("/aux_nccl_" : String) = "/aux_" ++ "nccl_" := rfl
theorem lit_ring_shape : ("/aux_ring/shape_" : String) = "/aux_ring/" ++ "shape_" := rfl
theorem lit_ring_flat : ("/aux_ring/flat_" : String) = "/aux_ring/" ++ "flat_" := rfl
theorem lit_ring_split : ("/aux_ring/split_" : String) = "/aux_ring/" ++ "split_" := rfl
theorem lit_ring_add : ("/aux_ring/add_" : String) = "/aux_ring/" ++ "add_" := rfl
theorem lit_ring_identity : ("/aux_ring/identity_" : String) = "/aux_ring/" ++ "identity_" := rfl
theorem lit_ring_concat : ("/aux_ring/concat_" : String) = "/aux_ring/" ++ "concat_" := rfl
theorem lit_ring_reshape : ("/aux_ring/reshape_" : String) = "/aux_ring/" ++ "reshape_" := rfl

theorem ringShapes_sound (t : TensorInfo) (toF : Form) (devices : List String)
    (dv : AttrValue) (psize : Nat) (list : List String) :
    ∀ (is : List Nat) (tg : Target),
      ∀ nd ∈ (ringShapes t toF devices dv psize list is tg).2.nodes,
        nd ∈ tg.nodes ∨ RingNamed t toF nd := by
  intro is
  induction is with
  | nil => intro tg nd hm; exact Or.inl hm
  | cons i rest ih =>
    intro tg nd hm
    simp only [ringShapes] at hm
    rcases ih _ nd hm with hin | hnamed
    · rcases List.mem_append.mp hin with h | h
      · exact Or.inl h
      · right
        refine ⟨"shape_" ++ natStr i, ?_⟩
        have hnd : nd = set_input_size
            { make_node t.raw "Shape" with
              name := (make_node t.raw "Shape").name ++ "/" ++ toF.code ++ "_" ++
                natStr t.index ++ "/aux_ring/shape_" ++ natStr i,
              device := devices.getD i "",
              attr := attrInsert (make_node t.raw "Shape").attr "T" dv,
              input := [list.getD i ""] } 0 psize := by
          simpa using h
        subst hnd
        rw [show ∀ nd0 : NodeDef, ∀ j s, (set_input_size nd0 j s).name = nd0.name from
          fun _ _ _ => rfl]
        rw [lit_ring_shape]
        simp only [strAssoc]
        rfl
    · exact Or.inr hnamed

theorem ringFlats_sound (t : TensorInfo) (toF : Form) (devices : List String)
    (dv : AttrValue) (psize : Nat) (list : List String) :
    ∀ (is : List Nat) (tg : Target),
      ∀ nd ∈ (ringFlats t toF devices dv psize list is tg).2.nodes,
        nd ∈ tg.nodes ∨ RingNamed t toF nd := by
  intro is
  induction is with
  | nil => intro tg nd hm; exact Or.inl hm
  | cons i rest ih =>
    intro tg nd hm
    simp only [ringFlats] at hm
    rcases ih _ nd hm with hin | hnamed
    · rcases List.mem_append.mp hin with h | h
      · exact Or.inl h
      · rcases List.mem_cons.mp h with h1 | h1
        · right
          refine ⟨"flat_" ++ natStr i ++ "/shape", ?_⟩
          subst h1
          rw [lit_ring_flat]
          simp only [strAssoc]
          rfl
        · right
          refine ⟨"flat_" ++ natStr i ++ "/flat", ?_⟩
          have h2 := List.mem_singleton.mp h1
          subst h2
          rw [lit_ring_flat]
          simp only [strAssoc]
          rfl
    · exact Or.inr hnamed

theorem foldl_sis_name (v : Nat) :
    ∀ (l : List Nat) (nd : NodeDef),
      (l.foldl (fun nd j => set_input_size nd j v) nd).name = nd.name := by
  intro l
  induction l with
  | nil => intro nd; rfl
  | cons a rest ih => intro nd; rw [List.foldl_cons, ih]; rfl

theorem ringChunks_sound (t : TensorInfo) (toF : Form) (devices : List String)
    (dv : AttrValue) (psize : Nat) (flats : List String) (n : Nat) :
    ∀ (is : List Nat) (tg : Target),
      ∀ nd ∈ (ringChunks t toF devices dv psize flats n is tg).2.nodes,
        nd ∈ tg.nodes ∨ RingNamed t toF nd := by
  intro is
  induction is with
  | nil => intro tg nd hm; exact Or.inl hm
  | cons i rest ih =>
    intro tg nd hm
    simp only [ringChunks] at hm
    rcases ih _ nd hm with hin | hnamed
    · rcases List.mem_append.mp hin with h | h
      · exact Or.inl h
      · rcases List.mem_cons.mp h with h1 | h1
        · right
          refine ⟨"split_" ++ natStr i ++ "/dim", ?_⟩
          subst h1
          rw [lit_ring_split]
          simp only [strAssoc]
          rfl
        · right
          refine ⟨"split_" ++ natStr i ++ "/split", ?_⟩
          have h2 := List.mem_singleton.mp h1
          subst h2
          rw [show ∀ nd0 : NodeDef, ∀ j s, (set_input_size nd0 j s).name = nd0.name from
            fun _ _ _ => rfl]
          rw [lit_ring_split]
          simp only [strAssoc]
          rfl
    · exact Or.inr hnamed

theorem ringAddStep_sound (t : TensorInfo) (toF : Form) (devices : List String)
    (dv : AttrValue) (psize n round : Nat) :
    ∀ (is : List Nat) (chunks : List (List String)) (tg : Target),
      ∀ nd ∈ (ringAddStep t toF devices dv psize n round is chunks tg).2.nodes,
        nd ∈ tg.nodes ∨ RingNamed t toF nd := by
  intro is
  induction is with
  | nil => intro chunks tg nd hm; exact Or.inl hm
  | cons i rest ih =>
    intro chunks tg nd hm
    simp only [ringAddStep] at hm
    rcases ih _ _ nd hm with hin | hnamed
    · rcases List.mem_append.mp hin with h | h
      · exact Or.inl h
      · right
        refine ⟨"add_" ++ natStr i ++ "_" ++ natStr round, ?_⟩
        have h2 := List.mem_singleton.mp h
        subst h2
        rw [show ∀ nd0 : NodeDef, ∀ j s, (set_input_size nd0 j s).name = nd0.name from
          fun _ _ _ => rfl]
        rw [show ∀ nd0 : NodeDef, ∀ j s, (set_input_size nd0 j s).name = nd0.name from
          fun _ _ _ => rfl]
        rw [lit_ring_add]
        simp only [strAssoc]
        rfl
    · exact Or.inr hnamed

theorem ringAddRounds_sound (t : TensorInfo) (toF : Form) (devices : List String)
    (dv : AttrValue) (psize n : Nat) :
    ∀ (rounds : List Nat) (chunks : List (List String)) (tg : Target),
      ∀ nd ∈ (ringAddRounds t toF devices dv psize n rounds chunks tg).2.nodes,
        nd ∈ tg.nodes ∨ RingNamed t toF nd := by
  intro rounds
  induction rounds with
  | nil => intro chunks tg nd hm; exact Or.inl hm
  | cons r rest ih =>
    intro chunks tg nd hm
    simp only [ringAddRounds] at hm
    rcases ih _ _ nd hm with hin | hnamed
    · exact ringAddStep_sound t toF devices dv psize n r (List.range n) chunks tg nd hin
    · exact Or.inr hnamed

theorem ringIdStep_sound (t : TensorInfo) (toF : Form) (devices : List String)
    (dv : AttrValue) (psize n round : Nat) :
    ∀ (is : List Nat) (chunks : List (List String)) (tg : Target),
      ∀ nd ∈ (ringIdStep t toF devices dv psize n round is chunks tg).2.nodes,
        nd ∈ tg.nodes ∨ RingNamed t toF nd := by
  intro is
  induction is with
  | nil => intro chunks tg nd hm; exact Or.inl hm
  | cons i rest ih =>
    intro chunks tg nd hm
    simp only [ringIdStep] at hm
    rcases ih _ _ nd hm with hin | hnamed
    · rcases List.mem_append.mp hin with h | h
      · exact Or.inl h
      · right
        refine ⟨"identity_" ++ natStr i ++ "_" ++ natStr round, ?_⟩
        have h2 := List.mem_singleton.mp h
        subst h2
        rw [show ∀ nd0 : NodeDef, ∀ j s, (set_input_size nd0 j s).name = nd0.name from
          fun _ _ _ => rfl]
        rw [lit_ring_identity]
        simp only [strAssoc]
        rfl
    · exact Or.inr hnamed

theorem ringIdRounds_sound (t : TensorInfo) (toF : Form) (devices : List String)
    (dv : AttrValue) (psize n : Nat) :
    ∀ (rounds : List Nat) (chunks : List (List String)) (tg : Target),
      ∀ nd ∈ (ringIdRounds t toF devices dv psize n rounds chunks tg).2.nodes,
        nd ∈ tg.nodes ∨ RingNamed t toF nd := by
  intro rounds
  induction rounds with
  | nil => intro chunks tg nd hm; exact Or.inl hm
  | cons r rest ih =>
    intro chunks tg nd hm
    simp only [ringIdRounds] at hm
    rcases ih _ _ nd hm with hin | hnamed
    · exact ringIdStep_sound t toF devices dv psize n r (List.range n) chunks tg nd hin
    · exact Or.inr hnamed

theorem ringConcats_sound (t : TensorInfo) (toF : Form) (devices : List String)
    (dv : AttrValue) (psize n : Nat) :
    ∀ (chunks : List (List String)) (i : Nat) (tg : Target),
      ∀ nd ∈ (ringConcats t toF devices dv psize n i chunks tg).2.nodes,
        nd ∈ tg.nodes ∨ RingNamed t toF nd := by
  intro chunks
  induction chunks with
  | nil => intro i tg nd hm; exact Or.inl hm
  | cons chunk rest ih =>
    intro i tg nd hm
    simp only [ringConcats] at hm
    rcases ih _ _ nd hm with hin | hnamed
    · rcases List.mem_append.mp hin with h | h
      · exact Or.inl h
      · rcases List.mem_cons.mp h with h1 | h1
        · right
          refine ⟨"concat_" ++ natStr i ++ "/axis", ?_⟩
          subst h1
          rw [lit_ring_concat]
          simp only [strAssoc]
          rfl
        · right
          refine ⟨"concat_" ++ natStr i ++ "/concat", ?_⟩
          have h2 := List.mem_singleton.mp h1
          subst h2
          rw [foldl_sis_name]
          rw [lit_ring_concat]
          simp only [strAssoc]
          rfl
    · exact Or.inr hnamed

theorem ringReshapes_sound (t : TensorInfo) (toF : Form) (devices : List String)
    (dv : AttrValue) (psize : Nat) :
    ∀ (ps : List (String × String)) (i : Nat) (tg : Target),
      ∀ nd ∈ (ringReshapes t toF devices dv psize i ps tg).2.nodes,
        nd ∈ tg.nodes ∨ RingNamed t toF nd := by
  intro ps
  induction ps with
  | nil => intro i tg nd hm; exact Or.inl hm
  | cons p rest ih =>
    intro i tg nd hm
    obtain ⟨concat, shape⟩ := p
    simp only [ringReshapes] at hm
    rcases ih _ _ nd hm with hin | hnamed
    · rcases List.mem_append.mp hin with h | h
      · exact Or.inl h
      · right
        refine ⟨"reshape_" ++ natStr i, ?_⟩
        have h2 := List.mem_singleton.mp h
        subst h2
        rw [show ∀ nd0 : NodeDef, ∀ j s, (set_input_size nd0 j s).name = nd0.name from
          fun _ _ _ => rfl]
        rw [lit_ring_reshape]
        simp only [strAssoc]
        rfl
    · exact Or.inr hnamed

theorem resplitConcats_sound (t : TensorInfo) (fm toF : Form) (dv : AttrValue) (sz : Nat) :
    ∀ (chunks : List (List String)) (i : Nat) (tg : Target),
      ∀ nd ∈ (resplitConcats t fm toF dv sz i chunks tg).2.nodes,
        nd ∈ tg.nodes ∨ AuxNamed t toF nd := by
  intro chunks
  induction chunks with
  | nil => intro i tg nd hm; exact Or.inl hm
  | cons chunk rest ih =>
    intro i tg nd hm
    simp only [resplitConcats] at hm
    rcases ih _ _ nd hm with hin | hnamed
    · rcases List.mem_append.mp hin with h | h
      · exact Or.inl h
      · rcases List.mem_cons.mp h with h1 | h1
        · right
          refine ⟨"resplit_" ++ natStr i ++ "/concat_axis", ?_⟩
          subst h1
          rw [lit_resplit]
          simp only [strAssoc]
          rfl
        · right
          refine ⟨"resplit_" ++ natStr i ++ "/concat", ?_⟩
          have h2 := List.mem_singleton.mp h1
          subst h2
          rw [foldl_sis_name]
          rw [lit_resplit]
          simp only [strAssoc]
          rfl
    · exact Or.inr hnamed

theorem resplitSplits_sound (t : TensorInfo) (fm toF : Form) (dv : AttrValue) (sz g : Nat) :
    ∀ (ps : List ((Nat × String) × List Nat)) (i : Nat) (tg : Target),
      ∀ nd ∈ (resplitSplits t fm toF dv sz g i ps tg).2.nodes,
        nd ∈ tg.nodes ∨ AuxNamed t toF nd := by
  intro ps
  induction ps with
  | nil => intro i tg nd hm; exact Or.inl hm
  | cons p rest ih =>
    intro i tg nd hm
    obtain ⟨⟨place, concated⟩, devs⟩ := p
    simp only [resplitSplits] at hm
    rcases ih _ _ nd hm with hin | hnamed
    · rcases List.mem_append.mp hin with h | h
      · exact Or.inl h
      · rcases List.mem_cons.mp h with h1 | h1
        · right
          refine ⟨"resplit_" ++ natStr i ++ "/split_dim", ?_⟩
          subst h1
          rw [lit_resplit]
          simp only [strAssoc]
          rfl
        · right
          refine ⟨"resplit_" ++ natStr i ++ "/split", ?_⟩
          have h2 := List.mem_singleton.mp h1
          subst h2
          rw [show ∀ nd0 : NodeDef, ∀ j s, (set_input_size nd0 j s).name = nd0.name from
            fun _ _ _ => rfl]
          rw [lit_resplit]
          simp only [strAssoc]
          rfl
    · exact Or.inr hnamed

theorem ncclLoop_sound (af : AsFormFn) (t : TensorInfo) (fm toF : Form)
    (haf : ∀ c' tg' r', af c' fm tg' = some r' → r'.2.2 = tg') :
    ∀ (is : List Nat) (i : Nat) (c : FormCache) (tg : Target) (res : FormCache × Target),
      ncclLoop af t fm toF i is c tg = some res →
      ∀ nd ∈ res.2.nodes, nd ∈ tg.nodes ∨ AuxNamed t toF nd := by
  intro is
  induction is with
  | nil =>
    intro i c tg res h nd hm
    simp only [ncclLoop] at h
    cases h
    exact Or.inl hm
  | cons d rest ih =>
    intro i c tg res h nd hm
    simp only [ncclLoop] at h
    split at h
    · exact absurd h (by simp)
    · split at h
      · exact absurd h (by simp)
      · rename_i names c1 tg1 heq
        have htg1 : tg1 = tg := haf _ _ (names, c1, tg1) heq
        subst htg1
        rcases ih _ _ _ _ h nd hm with hin | hnamed
        · rcases List.mem_append.mp hin with h2 | h2
          · exact Or.inl h2
          · right
            refine ⟨"nccl_" ++ natStr i, ?_⟩
            have h3 := List.mem_singleton.mp h2
            subst h3
            rw [lit_nccl]
            simp only [strAssoc]
            rfl
        · exact Or.inr hnamed

theorem asForm_own_pres (fuel : Nat) (t : TensorInfo) :
    ∀ (c : FormCache) (tg : Target) (r : List String × FormCache × Target),
      asForm fuel t c t.nodeForm tg = some r → r.2.2 = tg := by
  cases fuel with
  | zero => intro c tg r h; exact absurd h (by simp [asForm])
  | succ fuel =>
    intro c tg r h
    cases hl : lookupForm c t.nodeForm with
    | some names =>
      rw [asForm_hit fuel t c t.nodeForm tg names hl] at h
      cases h
      rfl
    | none =>
      rw [asForm_own_miss fuel t c tg hl] at h
      cases h
      rfl

theorem sum_named (fuel : Nat) (t : TensorInfo) (c : FormCache) (fm toF : Form)
    (tg : Target) (r : List String × FormCache × Target) (hfm : fm = t.nodeForm)
    (h : aggregate_sum fuel t c fm toF tg = some r) :
    ∀ nd ∈ r.2.2.nodes, nd ∈ tg.nodes ∨ AuxNamed t toF nd := by
  subst hfm
  unfold aggregate_sum aggregate_sum_impl at h
  split at h
  · unfold aggregate_sum_body at h
    split at h
    · exact absurd h (by simp)
    · split at h
      · exact absurd h (by simp)
      · rename_i names c1 tg1 heq
        split at h
        · exact absurd h (by simp)
        · cases h
          have htg1 : tg1 = tg :=
            asForm_own_pres fuel t c tg (names, c1, tg1) heq
          subst htg1
          intro nd hm
          rcases List.mem_append.mp hm with h2 | h2
          · exact Or.inl h2
          · right
            refine ⟨"sum", ?_⟩
            have h3 := List.mem_singleton.mp h2
            subst h3
            rw [foldl_sis_name]
            rw [lit_sum]
            simp only [strAssoc]
            rfl
  · exact absurd h (by simp)

theorem cat_named (fuel : Nat) (t : TensorInfo) (c : FormCache) (fm toF : Form)
    (tg : Target) (r : List String × FormCache × Target) (hfm : fm = t.nodeForm)
    (h : aggregate_cat fuel t c fm toF tg = some r) :
    ∀ nd ∈ r.2.2.nodes, nd ∈ tg.nodes ∨ AuxNamed t toF nd := by
  subst hfm
  unfold aggregate_cat aggregate_cat_impl at h
  split at h
  · unfold aggregate_cat_body at h
    split at h
    · exact absurd h (by simp)
    · rename_i names c1 tg1 heq
      split at h
      · exact absurd h (by simp)
      · split at h
        · exact absurd h (by simp)
        · cases h
          have htg1 : tg1 = tg :=
            asForm_own_pres fuel t c tg (names, c1, tg1) heq
          subst htg1
          intro nd hm
          rcases List.mem_append.mp hm with h2 | h2
          · exact Or.inl h2
          · rcases List.mem_cons.mp h2 with h3 | h3
            · right
              refine ⟨"concat/axis", ?_⟩
              subst h3
              rw [lit_concat_axis]
              simp only [strAssoc]
              rfl
            · right
              refine ⟨"concat/concat", ?_⟩
              have h4 := List.mem_singleton.mp h3
              subst h4
              rw [foldl_sis_name]
              rw [lit_concat_concat]
              simp only [strAssoc]
              rfl
  · exact absurd h (by simp)

theorem split_named (fuel : Nat) (t : TensorInfo) (c : FormCache) (fm toF : Form)
    (tg : Target) (r : List String × FormCache × Target) (hfm : fm = t.nodeForm)
    (h : replicate_split fuel t c fm toF tg = some r) :
    ∀ nd ∈ r.2.2.nodes, nd ∈ tg.nodes ∨ AuxNamed t toF nd := by
  subst hfm
  unfold replicate_split replicate_split_impl at h
  split at h
  · unfold replicate_split_body at h
    split at h
    · exact absurd h (by simp)
    · rename_i names c1 tg1 heq
      split at h
      · exact absurd h (by simp)
      · split at h
        · exact absurd h (by simp)
        · cases h
          have htg1 : tg1 = tg :=
            asForm_own_pres fuel t c tg (names, c1, tg1) heq
          subst htg1
          intro nd hm
          rcases List.mem_append.mp hm with h2 | h2
          · exact Or.inl h2
          · rcases List.mem_cons.mp h2 with h3 | h3
            · right
              refine ⟨"split/dim", ?_⟩
              subst h3
              rw [lit_split_dim]
              simp only [strAssoc]
              rfl
            · right
              refine ⟨"split/split", ?_⟩
              have h4 := List.mem_singleton.mp h3
              subst h4
              rw [show ∀ nd0 : NodeDef, ∀ j s, (set_input_size nd0 j s).name = nd0.name from
                fun _ _ _ => rfl]
              rw [lit_split_split]
              simp only [strAssoc]
              rfl
  · exact absurd h (by simp)

theorem resplit_named (fuel : Nat) (t : TensorInfo) (c : FormCache) (fm toF : Form)
    (tg : Target) (r : List String × FormCache × Target) (hfm : fm = t.nodeForm)
    (h : resplit fuel t c fm toF tg = some r) :
    ∀ nd ∈ r.2.2.nodes, nd ∈ tg.nodes ∨ AuxNamed t toF nd := by
  subst hfm
  unfold resplit resplit_impl at h
  split at h
  · unfold resplit_body at h
    split at h
    · exact absurd h (by simp)
    · rename_i names c1 tg1 heq
      split at h
      · exact absurd h (by simp)
      · split at h
        · exact absurd h (by simp)
        · cases h
          have htg1 : tg1 = tg :=
            asForm_own_pres fuel t c tg (names, c1, tg1) heq
          subst htg1
          intro nd hm
          rcases resplitSplits_sound t t.nodeForm toF _ _ _ _ _ _ nd hm with h2 | h2
          · exact resplitConcats_sound t t.nodeForm toF _ _ _ _ _ nd h2
          · exact Or.inr h2
  · exact absurd h (by simp)

theorem nccl_named (fuel : Nat) (t : TensorInfo) (c : FormCache) (fm toF : Form)
    (tg : Target) (r : List String × FormCache × Target) (hfm : fm = t.nodeForm)
    (h : all_reduce_nccl fuel t c fm toF tg = some r) :
    ∀ nd ∈ r.2.2.nodes, nd ∈ tg.nodes ∨ AuxNamed t toF nd := by
  subst hfm
  unfold all_reduce_nccl all_reduce_nccl_impl at h
  split at h
  · unfold all_reduce_nccl_body at h
    split at h
    · exact absurd h (by simp)
    · rename_i c1 tg1 heq
      cases h
      exact ncclLoop_sound _ t t.nodeForm toF
        (fun c' tg' r' hh => asForm_own_pres fuel t c' tg' r' hh) _ _ _ _ _ heq
  · exact absurd h (by simp)

theorem ring_named (fuel : Nat) (t : TensorInfo) (c : FormCache) (fm toF : Form)
    (tg : Target) (r : List String × FormCache × Target) (hfm : fm = t.nodeForm)
    (h : all_reduce_ring fuel t c fm toF tg = some r) :
    ∀ nd ∈ r.2.2.nodes, nd ∈ tg.nodes ∨ RingNamed t toF nd := by
  subst hfm
  unfold all_reduce_ring all_reduce_ring_impl at h
  split at h
  · unfold all_reduce_ring_body at h
    split at h
    · exact absurd h (by simp)
    · split at h
      · exact absurd h (by simp)
      · split at h
        · exact absurd h (by simp)
        · rename_i list c1 tg1 heq
          cases h
          have htg1 : tg1 = tg :=
            asForm_own_pres fuel t c tg (list, c1, tg1) heq
          subst htg1
          intro nd hm
          rcases ringReshapes_sound t toF _ _ _ _ _ _ nd hm with h2 | h2
          · rcases ringConcats_sound t toF _ _ _ _ _ _ _ nd h2 with h3 | h3
            · rcases ringIdRounds_sound t toF _ _ _ _ _ _ _ nd h3 with h4 | h4
              · rcases ringAddRounds_sound t toF _ _ _ _ _ _ _ nd h4 with h5 | h5
                · rcases ringChunks_sound t toF _ _ _ _ _ _ _ nd h5 with h6 | h6
                  · rcases ringFlats_sound t toF _ _ _ _ _ _ nd h6 with h7 | h7
                    · exact ringShapes_sound t toF _ _ _ _ _ _ nd h7
                    · exact Or.inr h7
                  · exact Or.inr h6
                · exact Or.inr h5
              · exact Or.inr h4
            · exact Or.inr h3
          · exact Or.inr h2
  · exact absurd h (by simp)

/-- C2 counterexample: on a concrete ring all-reduce (tensor `A`, port 0,
target form `full_0_1`), the first emitted auxiliary is named
`"A/full_0_1_0/aux_ring/shape_0"` — the target form code comes *before* the
port.  Under the claimed pattern `"<node>/<port>_<toformcode>/aux_…"` every
name would begin with `"A/0_"`, but this one begins with `"A/fu"`. -/
theorem C2_counterexample :
    (all_reduce_ring 3 tA [] tA.nodeForm ⟨.Full, [0, 1]⟩ tg2).isSome = true ∧
    (((all_reduce_ring 3 tA [] tA.nodeForm ⟨.Full, [0, 1]⟩ tg2).getD
        ([], [], tg2)).2.2.nodes.getD 0 ndDefault).name = "A/full_0_1_0/aux_ring/shape_0" ∧
    ("A/full_0_1_0/aux_ring/shape_0" : String).data.take 4 ≠ ("A/0_" : String).data ∧
    (tA.raw.name ++ "/" ++ natStr tA.index ++ "_").data = ("A/0_" : String).data := by
  refine ⟨by decide, by decide, by decide, by decide⟩

/-- C2 (amended): the auxiliary operators emitted by `aggregate_sum`,
`aggregate_cat`, `replicate_split`, `resplit` and `all_reduce_nccl` are all
named `"<node>/<port>_<toformcode>/aux_<...>"`, as claimed; the operators
emitted by `all_reduce_ring`, however, are named
`"<node>/<toformcode>_<port>/aux_ring/<...>"` — the target form code comes
before the consuming port. -/
theorem C2_amended :
    (∀ (fuel : Nat) (t : TensorInfo) (c : FormCache) (fm toF : Form) (tg : Target)
      (r : List String × FormCache × Target), fm = t.nodeForm →
      aggregate_sum fuel t c fm toF tg = some r →
      ∀ nd ∈ r.2.2.nodes, nd ∈ tg.nodes ∨ AuxNamed t toF nd) ∧
    (∀ (fuel : Nat) (t : TensorInfo) (c : FormCache) (fm toF : Form) (tg : Target)
      (r : List String × FormCache × Target), fm = t.nodeForm →
      aggregate_cat fuel t c fm toF tg = some r →
      ∀ nd ∈ r.2.2.nodes, nd ∈ tg.nodes ∨ AuxNamed t toF nd) ∧
    (∀ (fuel : Nat) (t : TensorInfo) (c : FormCache) (fm toF : Form) (tg : Target)
      (r : List String × FormCache × Target), fm = t.nodeForm →
      replicate_split fuel t c fm toF tg = some r →
      ∀ nd ∈ r.2.2.nodes, nd ∈ tg.nodes ∨ AuxNamed t toF nd) ∧
    (∀ (fuel : Nat) (t : TensorInfo) (c : FormCache) (fm toF : Form) (tg : Target)
      (r : List String × FormCache × Target), fm = t.nodeForm →
      resplit fuel t c fm toF tg = some r →
      ∀ nd ∈ r.2.2.nodes, nd ∈ tg.nodes ∨ AuxNamed t toF nd) ∧
    (∀ (fuel : Nat) (t : TensorInfo) (c : FormCache) (fm toF : Form) (tg : Target)
      (r : List String × FormCache × Target), fm = t.nodeForm →
      all_reduce_nccl fuel t c fm toF tg = some r →
      ∀ nd ∈ r.2.2.nodes, nd ∈ tg.nodes ∨ AuxNamed t toF nd) ∧
    (∀ (fuel : Nat) (t : TensorInfo) (c : FormCache) (fm toF : Form) (tg : Target)
      (r : List String × FormCache × Target), fm = t.nodeForm →
      all_reduce_ring fuel t c fm toF tg = some r →
      ∀ nd ∈ r.2.2.nodes, nd ∈ tg.nodes ∨ RingNamed t toF nd) :=
  ⟨fun fuel t c fm toF tg r hfm h => sum_named fuel t c fm toF tg r hfm h,
   fun fuel t c fm toF tg r hfm h => cat_named fuel t c fm toF tg r hfm h,
   fun fuel t c fm toF tg r hfm h => split_named fuel t c fm toF tg r hfm h,
   fun fuel t c fm toF tg r hfm h => resplit_named fuel t c fm toF tg r hfm h,
   fun fuel t c fm toF tg r hfm h => nccl_named fuel t c fm toF tg r hfm h,
   fun fuel t c fm toF tg r hfm h => ring_named fuel t c fm toF tg r hfm h⟩

/-- C2 witness: the emitted `AddN` of a concrete `aggregate_sum` run carries
the claimed `"<node>/<port>_<toformcode>/aux_…"` name. -/
theorem C2_witness : c2nd ∈ tg2.nodes ∨ AuxNamed tA ⟨.Full, [0]⟩ c2nd :=
  C2_amended.1 2 tA [] tA.nodeForm ⟨.Full, [0]⟩ tg2 c2res rfl (by decide) c2nd (by decide)

/-- C4 counterexample: resplit of a concrete `part_0_1_2_3` tensor to
`part_0_2` emits 8 operators in total — 4 `Const`s and 4 non-`Const`
auxiliaries (2 `ConcatV2` + 2 `Split`) — not the claimed 6 auxiliaries plus
4 `Const`s (under either reading: the non-`Const` count is 4, not 6, and
the total is 8, not 10). -/
theorem C4_counterexample :
    (resplit 2 tA4 [] ⟨.Part, [0, 1, 2, 3]⟩ ⟨.Part, [0, 2]⟩ tg4).isSome = true ∧
    ((((resplit 2 tA4 [] ⟨.Part, [0, 1, 2, 3]⟩ ⟨.Part, [0, 2]⟩ tg4).getD
        ([], [], tg4)).2.2.nodes).filter (fun nd => nd.op ≠ "Const")).length = 4 ∧
    ((((resplit 2 tA4 [] ⟨.Part, [0, 1, 2, 3]⟩ ⟨.Part, [0, 2]⟩ tg4).getD
        ([], [], tg4)).2.2.nodes).filter (fun nd => nd.op = "Const")).length = 4 ∧
    (((resplit 2 tA4 [] ⟨.Part, [0, 1, 2, 3]⟩ ⟨.Part, [0, 2]⟩ tg4).getD
        ([], [], tg4)).2.2.nodes).length = 8 ∧
    ¬ ((((resplit 2 tA4 [] ⟨.Part, [0, 1, 2, 3]⟩ ⟨.Part, [0, 2]⟩ tg4).getD
        ([], [], tg4)).2.2.nodes).filter (fun nd => nd.op ≠ "Const")).length = 6 ∧
    ¬ (((resplit 2 tA4 [] ⟨.Part, [0, 1, 2, 3]⟩ ⟨.Part, [0, 2]⟩ tg4).getD
        ([], [], tg4)).2.2.nodes).length = 10 := by
  refine ⟨by decide, by decide, by decide, by decide, by decide, by decide⟩

theorem getElem_append_len_add {α : Type} (l₁ l₂ : List α) (i : Nat) :
    (l₁ ++ l₂)[l₁.length + i]? = l₂[i]? := by
  rw [List.getElem?_append_right (by omega)]
  simp

theorem getD_append_len_add {α : Type} (l₁ l₂ : List α) (i : Nat) (d : α) :
    (l₁ ++ l₂).getD (l₁.length + i) d = l₂.getD i d := by
  simp [List.getD, getElem_append_len_add]

/-- C4 (amended): resplit from `part_0_1_2_3` to `part_0_2` emits, in order,
`gcd(4,2)=2` concat groups (each a `Const` axis plus a `ConcatV2` whose
first two inputs are two consecutive producer replicas, three inputs in
all) followed by 2 split groups (each a `Const` dim plus a `Split` with
`num_split=1`); in total 4 `Const`s plus 4 other auxiliaries (2 `ConcatV2`
+ 2 `Split`, not 6), and the returned reference list has length
`to.ndev() = 2`. -/
theorem C4_amended (fuel : Nat) (t : TensorInfo) (c : FormCache) (tg : Target)
    (dv : AttrValue) (sz : Nat)
    (hnf : t.nodeForm = ⟨.Part, [0, 1, 2, 3]⟩)
    (hc : lookupForm c (⟨.Part, [0, 1, 2, 3]⟩ : Form) = none)
    (hdv : get_dtype t.raw = some dv) (hsz : t.get_size = some sz) :
    ((resplit (fuel + 1) t c ⟨.Part, [0, 1, 2, 3]⟩ ⟨.Part, [0, 2]⟩ tg).map
      (fun r =>
        (r.1.length,
         (r.2.2.nodes.drop tg.nodes.length).map (fun nd => nd.op),
         ((r.2.2.nodes.drop tg.nodes.length).getD 1 ndDefault).input.take 2,
         ((r.2.2.nodes.drop tg.nodes.length).getD 1 ndDefault).input.length,
         ((r.2.2.nodes.drop tg.nodes.length).getD 3 ndDefault).input.take 2,
         ((r.2.2.nodes.drop tg.nodes.length).getD 3 ndDefault).input.length,
         getAttr ((r.2.2.nodes.drop tg.nodes.length).getD 5 ndDefault) "num_split",
         getAttr ((r.2.2.nodes.drop tg.nodes.length).getD 7 ndDefault) "num_split"))) =
      some (2,
        ["Const", "ConcatV2", "Const", "ConcatV2", "Const", "Split", "Const", "Split"],
        [replicaStr t.raw.name 0 ++ ":" ++ natStr t.index,
         replicaStr t.raw.name 1 ++ ":" ++ natStr t.index], 3,
        [replicaStr t.raw.name 2 ++ ":" ++ natStr t.index,
         replicaStr t.raw.name 3 ++ ":" ++ natStr t.index], 3,
        some (.i 1), some (.i 1)) := by
  have haf := asForm_own_miss fuel t c tg (by rw [hnf]; exact hc)
  rw [hnf] at haf
  simp only [resplit, resplit_impl]
  rw [if_pos (show ((⟨.Part, [0, 1, 2, 3]⟩ : Form).valid &&
      (⟨.Part, [0, 2]⟩ : Form).valid && (⟨.Part, [0, 1, 2, 3]⟩ : Form).is_part &&
      (⟨.Part, [0, 2]⟩ : Form).is_part) = true by decide)]
  simp only [resplit_body, haf, hdv, hsz, Option.map_some']
  simp only [subGcd, subGcdAux, chunksOf, chunksAux, ownNames, Form.ndev, Form.code,
    List.range, List.range.loop, List.map, List.length, List.foldl, resplitConcats,
    resplitSplits, List.zip, List.zipWith, set_input_size]
  simp only [List.append_assoc, List.cons_append, List.nil_append]
  simp only [List.drop_left]
  simp [Form.valid, Form.is_part, Form.is_full, make_node, set_belong_to, getAttr,
    attrInsert, replicaStr, List.getD]

/-- C4 witness: the amended resplit law at a concrete four-device tensor. -/
theorem C4_witness :
    ((resplit 2 tA4 [] ⟨.Part, [0, 1, 2, 3]⟩ ⟨.Part, [0, 2]⟩ tg4).map
      (fun r =>
        (r.1.length,
         (r.2.2.nodes.drop tg4.nodes.length).map (fun nd => nd.op),
         ((r.2.2.nodes.drop tg4.nodes.length).getD 1 ndDefault).input.take 2,
         ((r.2.2.nodes.drop tg4.nodes.length).getD 1 ndDefault).input.length,
         ((r.2.2.nodes.drop tg4.nodes.length).getD 3 ndDefault).input.take 2,
         ((r.2.2.nodes.drop tg4.nodes.length).getD 3 ndDefault).input.length,
         getAttr ((r.2.2.nodes.drop tg4.nodes.length).getD 5 ndDefault) "num_split",
         getAttr ((r.2.2.nodes.drop tg4.nodes.length).getD 7 ndDefault) "num_split"))) =
      some (2,
        ["Const", "ConcatV2", "Const", "ConcatV2", "Const", "Split", "Const", "Split"],
        [replicaStr tA4.raw.name 0 ++ ":" ++ natStr tA4.index,
         replicaStr tA4.raw.name 1 ++ ":" ++ natStr tA4.index], 3,
        [replicaStr tA4.raw.name 2 ++ ":" ++ natStr tA4.index,
         replicaStr tA4.raw.name 3 ++ ":" ++ natStr tA4.index], 3,
        some (.i 1), some (.i 1)) :=
  C4_amended 1 tA4 [] tg4 (.type .DT_FLOAT) 16 rfl (by decide) (by decide) (by decide)

/-! ## Input-size bookkeeping lemmas (`Node::compile`) -/

theorem get?_some_append {α : Type} {l : List α} (m : List α) {k : Nat} {x : α}
    (h : l.get? k = some x) : (l ++ m).get? k = some x := by
  have hk : k < l.length := by
    by_contra hc
    rw [List.get?_eq_getElem?, List.getElem?_eq_none (by omega)] at h
    simp at h
  rw [List.get?_eq_getElem?, List.getElem?_append_left hk, ← List.get?_eq_getElem?]
  exact h

theorem getAttr_insert_self (nd : NodeDef) (k : String) (v : AttrValue) :
    getAttr { nd with attr := attrInsert nd.attr k v } k = some v := by
  show (((attrInsert nd.attr k v).find? (fun p => p.1 = k)).map (·.2)) = some v
  induction nd.attr with
  | nil => simp [attrInsert, List.find?]
  | cons p rest ih =>
    by_cases hp : p.1 = k
    · simp [attrInsert, hp, List.find?]
    · obtain ⟨k', v'⟩ := p
      simp only at hp
      simp only [attrInsert, if_neg hp]
      rw [List.find?_cons_of_neg _ (by simpa using hp)]
      exact ih

theorem getAttr_insert_other (nd : NodeDef) (k k' : String) (v : AttrValue)
    (h : k' ≠ k) :
    getAttr { nd with attr := attrInsert nd.attr k v } k' = getAttr nd k' := by
  show (((attrInsert nd.attr k v).find? (fun p => p.1 = k')).map (·.2)) =
    ((nd.attr.find? (fun p => p.1 = k')).map (·.2))
  induction nd.attr with
  | nil => simp [attrInsert, List.find?, Ne.symm h]
  | cons p rest ih =>
    obtain ⟨k0, v0⟩ := p
    by_cases hp : k0 = k
    · subst hp
      rw [show attrInsert ((k0, v0) :: rest) k0 v = (k0, v) :: rest by
        simp [attrInsert]]
      rw [List.find?_cons_of_neg _ (by simpa using Ne.symm h),
        List.find?_cons_of_neg _ (by simpa using Ne.symm h)]
    · simp only [attrInsert, if_neg hp]
      by_cases hp' : k0 = k'
      · rw [List.find?_cons_of_pos _ (by simpa using hp'),
          List.find?_cons_of_pos _ (by simpa using hp')]
      · rw [List.find?_cons_of_neg _ (by simpa using hp'),
          List.find?_cons_of_neg _ (by simpa using hp')]
        exact ih

theorem tgeSizes_sis (nd : NodeDef) (i : Nat) (v : Nat) :
    tgeSizes (set_input_size nd i v) =
      (if (tgeSizes nd).length ≤ i then
        tgeSizes nd ++ List.replicate (i + 1 - (tgeSizes nd).length) 0
      else tgeSizes nd).set i (i64ofU64 v) := by
  unfold set_input_size
  rw [tgeSizes, getAttr_insert_self]
  rfl

theorem sis_get_self (nd : NodeDef) (i : Nat) (v : Nat) :
    (tgeSizes (set_input_size nd i v)).get? i = some (i64ofU64 v) := by
  rw [tgeSizes_sis]
  rw [List.get?_eq_getElem?, List.getElem?_set_eq_of_lt]
  split
  · rename_i hle
    simp [List.length_replicate]
    omega
  · rename_i hlt
    omega

theorem sis_get_other (nd : NodeDef) (i v k : Nat) (x : Int) (hk : k ≠ i)
    (hx : (tgeSizes nd).get? k = some x) :
    (tgeSizes (set_input_size nd i v)).get? k = some x := by
  rw [tgeSizes_sis, List.get?_eq_getElem?, List.getElem?_set_ne (Ne.symm hk),
    ← List.get?_eq_getElem?]
  split
  · exact get?_some_append _ hx
  · exact hx

theorem sis_name (nd : NodeDef) (i v : Nat) : (set_input_size nd i v).name = nd.name := rfl

theorem setOutput_shape (g : GraphSt) (id port : Nat) (c : FormCache) :
    ∀ nid, ((setOutput g id port c).get? nid).map Prod.fst = (g.get? nid).map Prod.fst := by
  intro nid
  unfold setOutput
  cases hid : g.get? id with
  | none => rfl
  | some p =>
    obtain ⟨gn, outs⟩ := p
    have hlt : id < g.length := by
      by_contra hc
      rw [List.get?_eq_getElem?, List.getElem?_eq_none (by omega)] at hid
      simp at hid
    by_cases hnid : nid = id
    · subst hnid
      rw [List.get?_eq_getElem?, List.getElem?_set_eq_of_lt _ (by simpa using hlt), hid]
      rfl
    · rw [List.get?_eq_getElem?, List.getElem?_set_ne (Ne.symm hnid), ← List.get?_eq_getElem?]

theorem get_output_spec (g : GraphSt) (id port : Nat) (t : TensorInfo) (cache : FormCache)
    (g1 : GraphSt) (h : get_output g id port = some (t, cache, g1)) :
    (∀ nid, (g1.get? nid).map Prod.fst = (g.get? nid).map Prod.fst) ∧
    (∀ k : FormKind, inputSize g (id, port, k) = t.get_size) := by
  unfold get_output at h
  cases hid : g.get? id with
  | none => rw [hid] at h; exact absurd h (by simp)
  | some p =>
    obtain ⟨gn, outs⟩ := p
    rw [hid] at h
    simp only [Option.some.injEq, Prod.mk.injEq] at h
    obtain ⟨ht, hcache, hg1⟩ := h
    constructor
    · intro nid
      subst hg1
      have hlt : id < g.length := by
        by_contra hc
        rw [List.get?_eq_getElem?, List.getElem?_eq_none (by omega)] at hid
        simp at hid
      by_cases hnid : nid = id
      · subst hnid
        rw [List.get?_eq_getElem?, List.getElem?_set_eq_of_lt _ (by simpa using hlt), hid]
        rfl
      · rw [List.get?_eq_getElem?, List.getElem?_set_ne (Ne.symm hnid), ← List.get?_eq_getElem?]
    · intro k
      unfold inputSize
      rw [hid, ← ht]

theorem inputSize_shape (g g' : GraphSt)
    (hs : ∀ nid, (g'.get? nid).map Prod.fst = (g.get? nid).map Prod.fst)
    (inp : Nat × Nat × FormKind) : inputSize g' inp = inputSize g inp := by
  unfold inputSize
  have h := hs inp.1
  cases hg' : g'.get? inp.1 with
  | none =>
    rw [hg'] at h
    cases hg : g.get? inp.1 with
    | none => rfl
    | some p => rw [hg] at h; simp at h
  | some p =>
    rw [hg'] at h
    cases hg : g.get? inp.1 with
    | none => rw [hg] at h; simp at h
    | some q =>
      rw [hg] at h
      simp only [Option.map_some', Option.some.injEq] at h
      obtain ⟨gn, outs⟩ := p
      obtain ⟨gn', outs'⟩ := q
      simp only at h
      rw [h]

theorem compileInputs_spec (fuel : Nat) (selfForm : Form) (ri : Nat) :
    ∀ (inps : List (Nat × Nat × FormKind)) (i : Nat) (nd : NodeDef) (g : GraphSt) (tg : Target)
      (nd' : NodeDef) (nms : List String) (g' : GraphSt) (tg' : Target),
      compileInputs fuel selfForm ri inps i nd g tg = some (nd', nms, g', tg') →
      nd'.name = nd.name ∧
      (∀ nid, (g'.get? nid).map Prod.fst = (g.get? nid).map Prod.fst) ∧
      TgExt tg tg' ∧
      (∀ k x, (tgeSizes nd).get? k = some x → k < i → (tgeSizes nd').get? k = some x) ∧
      (∀ j inp, inps.get? j = some inp →
        ∃ sz, inputSize g inp = some sz ∧
          (tgeSizes nd').get? (i + j) =
            some (i64ofU64 (match selfForm.kind with
              | FormKind.Full => sz
              | FormKind.Part => sz / selfForm.ndev))) := by
  intro inps
  induction inps with
  | nil =>
    intro i nd g tg nd' nms g' tg' h
    simp only [compileInputs, Option.some.injEq, Prod.mk.injEq] at h
    obtain ⟨h1, h2, h3, h4⟩ := h
    subst h1; subst h3; subst h4
    refine ⟨rfl, fun _ => rfl, tgExt_refl tg, fun k x hx _ => hx, fun j inp hj => ?_⟩
    simp at hj
  | cons inp0 rest ih =>
    intro i nd g tg nd' nms g' tg' h
    obtain ⟨nid, port, kind⟩ := inp0
    simp only [compileInputs] at h
    split at h
    · exact absurd h (by simp)
    · rename_i t cache g1 hgo
      split at h
      · exact absurd h (by simp)
      · rename_i sz hsz
        split at h
        · exact absurd h (by simp)
        · rename_i names cache' tg1 haf
          split at h
          · exact absurd h (by simp)
          · rename_i nm hnm
            split at h
            · exact absurd h (by simp)
            · rename_i nd2 nms2 g2 tg2 hrec
              cases h
              obtain ⟨ihName, ihShape, ihExt, ihPres, ihSizes⟩ :=
                ih (i + 1) _ (setOutput g1 nid port cache') tg1 _ _ _ _ hrec
              have hgspec := get_output_spec g nid port t cache g1 hgo
              have hstep : ∀ nid',
                  ((setOutput g1 nid port cache').get? nid').map Prod.fst =
                    (g.get? nid').map Prod.fst :=
                fun nid' => (setOutput_shape g1 nid port cache' nid').trans (hgspec.1 nid')
              refine ⟨ihName.trans (sis_name nd i _), ?_, ?_, ?_, ?_⟩
              · exact fun nid' => (ihShape nid').trans (hstep nid')
              · exact tgExt_trans (asForm_ext fuel t cache _ tg (names, cache', tg1) haf) ihExt
              · intro k x hx hk
                exact ihPres k x (sis_get_other nd i _ k x (by omega) hx) (by omega)
              · intro j inp hj
                cases j with
                | zero =>
                  refine ⟨sz, ?_, ?_⟩
                  · cases hj
                    rw [hgspec.2 kind, hsz]
                  · rw [Nat.add_zero]
                    exact ihPres i _ (sis_get_self nd i _) (by omega)
                | succ j =>
                  rw [List.get?_cons_succ] at hj
                  obtain ⟨sz', hin, hat⟩ := ihSizes j inp hj
                  refine ⟨sz', ?_, ?_⟩
                  · rw [← inputSize_shape g (setOutput g1 nid port cache') hstep inp]
                    exact hin
                  · rw [show i + (j + 1) = i + 1 + j by omega]
                    exact hat

theorem compileReplica_spec (fuel : Nat) (self : GNode) (ri dev : Nat) (g : GraphSt)
    (tg : Target) (g' : GraphSt) (tg' : Target)
    (h : compileReplica fuel self ri dev g tg = some (g', tg')) :
    (∀ nid, (g'.get? nid).map Prod.fst = (g.get? nid).map Prod.fst) ∧
    TgExt tg tg' ∧
    ∃ nd, nd ∈ tg'.nodes ∧ nd.name = replicaStr self.raw.name ri ∧
      ∀ j inp, self.inputs.get? j = some inp →
        ∃ sz, inputSize g inp = some sz ∧
          (tgeSizes nd).get? j = some (i64ofU64 (match self.form.kind with
            | FormKind.Full => sz
            | FormKind.Part => sz / self.form.ndev)) := by
  simp only [compileReplica] at h
  split at h
  · exact absurd h (by simp)
  · rename_i nd1 names g1 tg1 hci
    split at h
    · exact absurd h (by simp)
    · rename_i ctrls hctl
      cases h
      obtain ⟨hname, hshape, hext, _, hsizes⟩ :=
        compileInputs_spec fuel self.form ri self.inputs 0 _ g tg _ _ _ _ hci
      refine ⟨hshape, tgExt_trans hext (tgExt_push tg1 _), ?_⟩
      refine ⟨{ nd1 with input := names ++ ctrls }, by simp, hname, ?_⟩
      intro j inp hj
      obtain ⟨sz, hin, hat⟩ := hsizes j inp hj
      rw [Nat.zero_add] at hat
      exact ⟨sz, hin, hat⟩

theorem compileReplicas_spec (fuel : Nat) (self : GNode) :
    ∀ (devs : List Nat) (ri0 : Nat) (g : GraphSt) (tg : Target) (g' : GraphSt) (tg' : Target),
      compileReplicas fuel self ri0 devs g tg = some (g', tg') →
      (∀ nid, (g'.get? nid).map Prod.fst = (g.get? nid).map Prod.fst) ∧
      TgExt tg tg' ∧
      ∀ k, k < devs.length →
        ∃ nd, nd ∈ tg'.nodes ∧ nd.name = replicaStr self.raw.name (ri0 + k) ∧
          ∀ j inp, self.inputs.get? j = some inp →
            ∃ sz, inputSize g inp = some sz ∧
              (tgeSizes nd).get? j = some (i64ofU64 (match self.form.kind with
                | FormKind.Full => sz
                | FormKind.Part => sz / self.form.ndev)) := by
  intro devs
  induction devs with
  | nil =>
    intro ri0 g tg g' tg' h
    simp only [compileReplicas, Option.some.injEq, Prod.mk.injEq] at h
    obtain ⟨h1, h2⟩ := h
    subst h1; subst h2
    exact ⟨fun _ => rfl, tgExt_refl tg, fun k hk => absurd hk (by simp)⟩
  | cons dev rest ih =>
    intro ri0 g tg g' tg' h
    simp only [compileReplicas] at h
    split at h
    · exact absurd h (by simp)
    · rename_i g1 tg1 hcr
      obtain ⟨shape1, ext1, nd0, hmem0, hname0, hsz0⟩ :=
        compileReplica_spec fuel self ri0 dev g tg g1 tg1 hcr
      obtain ⟨shape2, ext2, hrest⟩ := ih (ri0 + 1) g1 tg1 g' tg' h
      refine ⟨fun nid => (shape2 nid).trans (shape1 nid), tgExt_trans ext1 ext2, ?_⟩
      intro k hk
      cases k with
      | zero =>
        rw [Nat.add_zero]
        exact ⟨nd0, tgExt_mem ext2 hmem0, hname0, hsz0⟩
      | succ k =>
        obtain ⟨nd, hmem, hname, hsz⟩ := hrest k (by simpa using hk)
        rw [show ri0 + (k + 1) = ri0 + 1 + k by omega]
        refine ⟨nd, hmem, hname, ?_⟩
        intro j inp hj
        obtain ⟨sz, hin, hat⟩ := hsz j inp hj
        rw [inputSize_shape g g1 shape1 inp] at hin
        exact ⟨sz, hin, hat⟩

/-- C1: counterexample. The consumer `B` has node form `part_0_1` but requests
its single logical input (output 0 of the size-4 producer `A`) in `Full` kind.
The claim then requires `_tge_input_sizes[0] = get_size() = 4`; the emitted
replica instead carries `2 = 4 / ndev`, because `Node::compile` selects the
divisor by matching on the consumer node's own form, not on the kind in which
the input is requested. -/
theorem C1_counterexample :
    GNode.compile 3 gnB gSt tg2 = some c1res ∧
    gnB.inputs.get? 0 = some (0, 0, FormKind.Full) ∧
    inputSize gSt (0, 0, FormKind.Full) = some 4 ∧
    (c1res.2.nodes.filter (fun nd => nd.name == replicaStr gnB.raw.name 0)).map tgeSizes
      = [[2]] ∧
    (2 : Int) ≠ i64ofU64 4 :=
  ⟨rfl, rfl, rfl, rfl, by decide⟩

/-- C1 (amended): the input-size law that actually holds. For every node the
build emits — one replica per device of the consumer's form — and every data
input `j`, `_tge_input_sizes[j]` is the producer tensor's `get_size()` when
the CONSUMER's node form is `Full`, and `get_size() / ndev` (with `ndev` the
consumer form's device count) when the consumer's node form is `Part`; the
kind in which the individual input is requested plays no role. -/
theorem C1_amended (fuel : Nat) (self : GNode) (g : GraphSt) (tg : Target)
    (g' : GraphSt) (tg' : Target) (h : GNode.compile fuel self g tg = some (g', tg'))
    (ri : Nat) (hri : ri < self.form.devices.length) :
    ∃ nd, nd ∈ tg'.nodes ∧ nd.name = replicaStr self.raw.name ri ∧
      ∀ j inp, self.inputs.get? j = some inp →
        ∃ sz, inputSize g inp = some sz ∧
          (tgeSizes nd).get? j = some (i64ofU64 (match self.form.kind with
            | FormKind.Full => sz
            | FormKind.Part => sz / self.form.ndev)) := by
  simp only [GNode.compile] at h
  obtain ⟨_, _, hrest⟩ := compileReplicas_spec fuel self self.form.devices 0 g tg g' tg' h
  obtain ⟨nd, hmem, hname, hsz⟩ := hrest ri hri
  rw [Nat.zero_add] at hname
  exact ⟨nd, hmem, hname, hsz⟩

/-- C1: witness for the amended law at the concrete consumer `B`. -/
theorem C1_witness :
    ∃ nd, nd ∈ c1res.2.nodes ∧ nd.name = replicaStr gnB.raw.name 0 ∧
      ∀ j inp, gnB.inputs.get? j = some inp →
        ∃ sz, inputSize gSt inp = some sz ∧
          (tgeSizes nd).get? j = some (i64ofU64 (match gnB.form.kind with
            | FormKind.Full => sz
            | FormKind.Part => sz / gnB.form.ndev)) :=
  C1_amended 3 gnB gSt tg2 c1res.1 c1res.2 rfl 0 (by decide)

theorem parse_input_fst (x : List Char) :
    (parse_input x).1 = x.takeWhile (fun c => c ≠ ':') := by
  simp only [parse_input]
  split
  · rename_i h
    exact ((List.takeWhile_prefix _).eq_of_length h).symm
  · rfl

theorem dictHas_cons (dict : List (String × Nat)) (k : String)
    (h : dictHas dict k = true) (nm : String) (i : Nat) :
    dictHas ((nm, i) :: dict) k = true := by
  unfold dictHas dictFind at h ⊢
  by_cases hk : nm = k
  · rw [List.find?_cons_of_pos _ (by simpa using hk)]
    rfl
  · rw [List.find?_cons_of_neg _ (by simpa using hk)]
    exact h

theorem dictFind_mem (dict : List (String × Nat)) (k : String) (i : Nat)
    (h : dictFind dict k = some i) : ∃ p, p ∈ dict ∧ p.2 = i := by
  unfold dictFind at h
  cases hf : dict.find? (fun p => decide (p.1 = k)) with
  | none => rw [hf] at h; exact absurd h (by simp)
  | some p =>
    rw [hf] at h
    exact ⟨p, List.mem_of_find?_eq_some hf, by simpa using h⟩

theorem collectRefs_isSome (dict : List (String × Nat)) :
    ∀ ss : List String, (∀ s ∈ ss, dictHas dict (inputKey s) = true) →
      (∀ s ∈ ss, s.data.head? = some '^' ∨ (parse_input s.data).2.isSome = true) →
      (collectRefs dict ss).isSome = true := by
  intro ss
  induction ss with
  | nil => intro _ _; rfl
  | cons s rest ih =>
    intro hready hwf
    have hr := hready s (by simp)
    have hw := hwf s (by simp)
    have ihs := ih (fun x hx => hready x (by simp [hx])) (fun x hx => hwf x (by simp [hx]))
    simp only [collectRefs]
    by_cases hc : s.data.head? = some '^'
    · rw [if_pos hc]
      unfold inputKey at hr
      rw [if_pos hc] at hr
      unfold dictHas at hr
      cases hfind : dictFind dict ⟨s.data.drop 1⟩ with
      | none => rw [hfind] at hr; simp at hr
      | some id => simp only [hfind]; simpa using ihs
    · rw [if_neg hc]
      rcases hw with hcc | hp
      · exact absurd hcc hc
      split
      · rename_i nm port hpi
        have hkey : (⟨nm⟩ : String) = inputKey s := by
          unfold inputKey
          rw [if_neg hc]
          have hnm : nm = (parse_input s.data).1 := by rw [hpi]
          rw [hnm, parse_input_fst]
        unfold dictHas at hr
        cases hfind : dictFind dict (⟨nm⟩ : String) with
        | none =>
          rw [hkey] at hfind
          rw [hfind] at hr
          simp at hr
        | some id => simp only [hfind]; simpa using ihs
      · rename_i nm hpi
        rw [hpi] at hp
        simp at hp

theorem collectRefs_bound (dict : List (String × Nat)) :
    ∀ (ss : List String) (cs : List Nat) (ds : List (Nat × Nat × FormKind)),
      collectRefs dict ss = some (cs, ds) →
      (∀ c ∈ cs, ∃ k, dictFind dict k = some c) ∧
      (∀ x ∈ ds, ∃ k, dictFind dict k = some x.1) := by
  intro ss
  induction ss with
  | nil =>
    intro cs ds h
    simp only [collectRefs, Option.some.injEq, Prod.mk.injEq] at h
    obtain ⟨h1, h2⟩ := h
    subst h1; subst h2
    exact ⟨by simp, by simp⟩
  | cons s rest ih =>
    intro cs ds h
    simp only [collectRefs] at h
    split at h
    · split at h
      · exact absurd h (by simp)
      · rename_i id hfind
        cases hcr : collectRefs dict rest with
        | none => rw [hcr] at h; exact absurd h (by simp)
        | some p =>
          rw [hcr] at h
          simp only [Option.map_some', Option.some.injEq, Prod.mk.injEq] at h
          obtain ⟨h1, h2⟩ := h
          subst h1; subst h2
          obtain ⟨ihc, ihd⟩ := ih p.1 p.2 (by rw [hcr])
          constructor
          · intro c hcm
            rcases List.mem_cons.mp hcm with h1 | h1
            · exact ⟨_, h1 ▸ hfind⟩
            · exact ihc c h1
          · exact ihd
    · split at h
      · rename_i nm port hpi
        split at h
        · exact absurd h (by simp)
        · rename_i id hfind
          cases hcr : collectRefs dict rest with
          | none => rw [hcr] at h; exact absurd h (by simp)
          | some p =>
            rw [hcr] at h
            simp only [Option.map_some', Option.some.injEq, Prod.mk.injEq] at h
            obtain ⟨h1, h2⟩ := h
            subst h1; subst h2
            obtain ⟨ihc, ihd⟩ := ih p.1 p.2 (by rw [hcr])
            constructor
            · exact ihc
            · intro x hxm
              rcases List.mem_cons.mp hxm with h1 | h1
              · exact ⟨_, by rw [h1]; exact hfind⟩
              · exact ihd x h1
      · exact absurd h (by simp)

theorem buildStep_ord (st st' : BuildState) (h : buildStep st = some st')
    (hd : DictBound st) (hn : NodeOrd st) : DictBound st' ∧ NodeOrd st' := by
  simp only [buildStep] at h
  split at h
  · cases h; exact ⟨hd, hn⟩
  · rename_i d rest hq
    split at h
    · split at h
      · exact absurd h (by simp)
      · rename_i bn hbn
        cases h
        constructor
        · intro p hp
          simp only [List.length_append, List.length_cons, List.length_nil]
          rcases List.mem_cons.mp hp with h1 | h1
          · subst h1; simp
          · have := hd p h1; omega
        · intro j bn' hj
          by_cases hjl : j < st.nodes.length
          · rw [List.get?_eq_getElem?, List.getElem?_append_left hjl,
              ← List.get?_eq_getElem?] at hj
            exact hn j bn' hj
          · by_cases hje : j = st.nodes.length
            · subst hje
              rw [List.get?_eq_getElem?, List.getElem?_append_right (le_refl _)] at hj
              simp only [Nat.sub_self, List.getElem?_cons_zero, Option.some.injEq] at hj
              subst hj
              unfold bNodeNew at hbn
              cases hcr : collectRefs st.name_dict d.input with
              | none => rw [hcr] at hbn; exact absurd hbn (by simp)
              | some pr =>
                rw [hcr] at hbn
                simp only [Option.map_some', Option.some.injEq] at hbn
                cases hbn
                obtain ⟨hcs, his⟩ := collectRefs_bound st.name_dict d.input pr.1 pr.2 (by rw [hcr])
                constructor
                · intro c hc
                  obtain ⟨k, hk⟩ := hcs c hc
                  obtain ⟨p, hpmem, hpv⟩ := dictFind_mem _ _ _ hk
                  have := hd p hpmem; omega
                · intro x hx
                  obtain ⟨k, hk⟩ := his x hx
                  obtain ⟨p, hpmem, hpv⟩ := dictFind_mem _ _ _ hk
                  have := hd p hpmem; omega
            · rw [List.get?_eq_getElem?, List.getElem?_eq_none (by simp; omega)] at hj
              exact absurd hj (by simp)
    · cases h; exact ⟨hd, hn⟩

theorem runB_ord : ∀ (fuel : Nat) (st : BuildState) (ns : List BNode)
    (dict : List (String × Nat)), DictBound st → NodeOrd st →
    runB fuel st = some (ns, dict) →
    ∀ j bn, ns.get? j = some bn →
      (∀ c ∈ bn.controls, c < j) ∧ (∀ x ∈ bn.inputs, x.1 < j) := by
  intro fuel
  induction fuel with
  | zero =>
    intro st ns dict hd hn h
    simp only [runB] at h
    split at h
    · simp only [Option.some.injEq, Prod.mk.injEq] at h
      obtain ⟨h1, h2⟩ := h
      subst h1
      exact hn
    · exact absurd h (by simp)
  | succ f ih =>
    intro st ns dict hd hn h
    simp only [runB] at h
    split at h
    · simp only [Option.some.injEq, Prod.mk.injEq] at h
      obtain ⟨h1, h2⟩ := h
      subst h1
      exact hn
    · split at h
      · exact absurd h (by simp)
      · rename_i st' hstep
        obtain ⟨hd', hn'⟩ := buildStep_ord st st' hstep hd hn
        exact ih st' ns dict hd' hn' h

theorem buildStep_binv (defs : List NodeDef) (st st' : BuildState)
    (h : buildStep st = some st') (hinv : BuildInv defs st) : BuildInv defs st' := by
  obtain ⟨hsub, hcov⟩ := hinv
  simp only [buildStep] at h
  split at h
  · cases h; exact ⟨hsub, hcov⟩
  · rename_i d rest hq
    split at h
    · split at h
      · exact absurd h (by simp)
      · rename_i bn hbn
        cases h
        constructor
        · intro q hql
          exact hsub q (by rw [hq]; simp [hql])
        · intro d2 hd2
          rcases hcov d2 hd2 with hhas | hqn
          · exact Or.inl (dictHas_cons _ _ hhas _ _)
          · rw [hq] at hqn
            simp only [List.map_cons, List.mem_cons] at hqn
            rcases hqn with heq2 | hqn
            · left
              rw [heq2]
              unfold dictHas dictFind
              rw [List.find?_cons_of_pos _ (by simp)]
              rfl
            · exact Or.inr hqn
    · cases h
      constructor
      · intro q hql
        simp only [List.mem_append, List.mem_singleton] at hql
        rcases hql with h1 | h1
        · exact hsub q (by rw [hq]; simp [h1])
        · subst h1; exact hsub q (by rw [hq]; simp)
      · intro d2 hd2
        rcases hcov d2 hd2 with hhas | hqn
        · exact Or.inl hhas
        · right
          rw [hq] at hqn
          simp only [List.map_cons, List.mem_cons] at hqn
          simp only [List.map_append, List.mem_append, List.map_cons, List.map_nil,
            List.mem_singleton, List.mem_cons]
          rcases hqn with h1 | h1
          · right; simp [h1]
          · left; exact h1

theorem build_progress (defs : List NodeDef) (st : BuildState)
    (hcl : ClosedDefs defs) (hac : AcyclicAll defs) (hinv : BuildInv defs st)
    (hne : st.queue ≠ []) :
    ∃ d, d ∈ st.queue ∧ readyB st.name_dict d = true := by
  obtain ⟨hsub, hcov⟩ := hinv
  have hS : (defs.filter (fun x => decide (x ∈ st.queue))) ∈ defs.sublists :=
    List.mem_sublists.mpr (List.filter_sublist defs)
  have hSne : defs.filter (fun x => decide (x ∈ st.queue)) ≠ [] := by
    obtain ⟨q0, hq0⟩ := List.exists_mem_of_ne_nil st.queue hne
    have hmem : q0 ∈ defs.filter (fun x => decide (x ∈ st.queue)) :=
      List.mem_filter.mpr ⟨hsub q0 hq0, by simpa using hq0⟩
    intro hnil
    rw [hnil] at hmem
    simp at hmem
  obtain ⟨d, hdS, hmin⟩ := hac _ hS hSne
  obtain ⟨hddefs, hdq⟩ := List.mem_filter.mp hdS
  refine ⟨d, by simpa using hdq, ?_⟩
  rw [readyB, List.all_eq_true]
  intro inp hinp
  have hk : inputKey inp ∈ depKeys d := List.mem_map_of_mem _ hinp
  have hkin := hcl d hddefs (inputKey inp) hk
  rw [List.mem_map] at hkin
  obtain ⟨d2, hd2, hd2n⟩ := hkin
  rcases hcov d2 hd2 with hhas | hqn
  · rw [hd2n] at hhas
    exact hhas
  · exfalso
    rw [List.mem_map] at hqn
    obtain ⟨q, hq, hqname⟩ := hqn
    have hqS : q ∈ defs.filter (fun x => decide (x ∈ st.queue)) :=
      List.mem_filter.mpr ⟨hsub q hq, by simpa using hq⟩
    refine hmin (inputKey inp) hk ?_
    rw [List.mem_map]
    exact ⟨q, hqS, by rw [hqname, hd2n]⟩

theorem buildStep_admit (st : BuildState) (d : NodeDef) (rest : List NodeDef)
    (hq : st.queue = d :: rest) (hready : readyB st.name_dict d = true)
    (hwf : ∀ s ∈ d.input, s.data.head? = some '^' ∨ (parse_input s.data).2.isSome = true) :
    ∃ bn, bNodeNew st.name_dict d = some bn ∧
      buildStep st = some
        { nodes := st.nodes ++ [bn],
          name_dict := (d.name, st.nodes.length) :: st.name_dict, queue := rest } := by
  have hcs : (collectRefs st.name_dict d.input).isSome = true :=
    collectRefs_isSome _ _ (fun s hs => by
      rw [readyB, List.all_eq_true] at hready
      exact hready s hs) hwf
  cases hbn : bNodeNew st.name_dict d with
  | none =>
    exfalso
    unfold bNodeNew at hbn
    cases hcr : collectRefs st.name_dict d.input with
    | none => rw [hcr] at hcs; simp at hcs
    | some p => rw [hcr] at hbn; simp at hbn
  | some bn =>
    refine ⟨bn, rfl, ?_⟩
    simp only [buildStep, hq]
    rw [if_pos hready, hbn]

theorem stepsToAdmit (defs : List NodeDef) (hwfall : WFInputs defs) :
    ∀ (p : Nat) (st : BuildState) (d : NodeDef), BuildInv defs st →
      st.queue.get? p = some d → readyB st.name_dict d = true →
      ∃ m st', st'.queue.length + 1 = st.queue.length ∧ BuildInv defs st' ∧
        ∀ f r, runB f st' = some r → runB (f + m) st = some r := by
  intro p
  induction p with
  | zero =>
    intro st d hinv hget hready
    cases hq : st.queue with
    | nil => rw [hq] at hget; simp at hget
    | cons d0 rest =>
      rw [hq] at hget
      simp only [List.get?_cons_zero, Option.some.injEq] at hget
      subst hget
      have hwf : ∀ s ∈ d0.input, s.data.head? = some '^' ∨ (parse_input s.data).2.isSome = true :=
        fun s hs => hwfall d0 (hinv.1 d0 (by rw [hq]; simp)) s hs
      obtain ⟨bn, hbn, hstep⟩ := buildStep_admit st d0 rest hq hready hwf
      refine ⟨1,
        { nodes := st.nodes ++ [bn],
          name_dict := (d0.name, st.nodes.length) :: st.name_dict, queue := rest },
        ?_, buildStep_binv defs st _ hstep hinv, ?_⟩
      · rfl
      · intro f r hrun
        simp only [runB, hq, hstep]
        exact hrun
  | succ p ih =>
    intro st d hinv hget hready
    cases hq : st.queue with
    | nil => rw [hq] at hget; simp at hget
    | cons d0 rest =>
      rw [hq] at hget
      rw [List.get?_cons_succ] at hget
      by_cases hrdy0 : readyB st.name_dict d0 = true
      · have hwf : ∀ s ∈ d0.input,
            s.data.head? = some '^' ∨ (parse_input s.data).2.isSome = true :=
          fun s hs => hwfall d0 (hinv.1 d0 (by rw [hq]; simp)) s hs
        obtain ⟨bn, hbn, hstep⟩ := buildStep_admit st d0 rest hq hrdy0 hwf
        refine ⟨1,
          { nodes := st.nodes ++ [bn],
            name_dict := (d0.name, st.nodes.length) :: st.name_dict, queue := rest },
          ?_, buildStep_binv defs st _ hstep hinv, ?_⟩
        · rfl
        · intro f r hrun
          simp only [runB, hq, hstep]
          exact hrun
      · have hstep : buildStep st = some { st with queue := rest ++ [d0] } := by
          simp only [buildStep, hq]
          rw [if_neg hrdy0]
        have hinv1 : BuildInv defs { st with queue := rest ++ [d0] } :=
          buildStep_binv defs st _ hstep hinv
        have hget1 : ({ st with queue := rest ++ [d0] } : BuildState).queue.get? p = some d := by
          show (rest ++ [d0]).get? p = some d
          have hp : p < rest.length := by
            by_contra hc
            rw [List.get?_eq_getElem?, List.getElem?_eq_none (by omega)] at hget
            simp at hget
          rw [List.get?_eq_getElem?, List.getElem?_append_left hp, ← List.get?_eq_getElem?]
          exact hget
        obtain ⟨m, st', hlen, hinv', hcomp⟩ :=
          ih { st with queue := rest ++ [d0] } d hinv1 hget1 hready
        refine ⟨m + 1, st', ?_, hinv', ?_⟩
        · have h1 : st'.queue.length + 1 = rest.length + 1 := by simpa using hlen
          simp only [List.length_cons]
          omega
        · intro f r hrun
          have hmid := hcomp f r hrun
          show runB (f + m + 1) st = some r
          simp only [runB, hq, hstep]
          exact hmid

theorem runB_terminates (defs : List NodeDef) (hcl : ClosedDefs defs)
    (hwf : WFInputs defs) (hac : AcyclicAll defs) :
    ∀ (L : Nat) (st : BuildState), BuildInv defs st → st.queue.length = L →
      ∃ fuel ns dict, runB fuel st = some (ns, dict) := by
  intro L
  induction L with
  | zero =>
    intro st hinv hlen
    refine ⟨0, st.nodes, st.name_dict, ?_⟩
    have hq : st.queue = [] := List.length_eq_zero.mp hlen
    simp only [runB, hq]
  | succ L ih =>
    intro st hinv hlen
    have hne : st.queue ≠ [] := by
      intro hq
      rw [hq] at hlen
      simp at hlen
    obtain ⟨d, hdq, hready⟩ := build_progress defs st hcl hac hinv hne
    obtain ⟨p, hp⟩ := List.mem_iff_getElem?.mp hdq
    obtain ⟨m, st', hlen', hinv', hcomp⟩ :=
      stepsToAdmit defs hwf p st d hinv (by rw [List.get?_eq_getElem?]; exact hp) hready
    obtain ⟨fuel, ns, dict, hrun⟩ := ih st' hinv' (by omega)
    exact ⟨fuel + m, ns, dict, hcomp fuel (ns, dict) hrun⟩

/-- C8: counterexample. The two definitions of `exCyc` form a pure
control-dependency cycle (`A` waits on `^B`, `B` on `^A`) and carry no data
edge at all, so the input is acyclic with respect to data edges; yet the
work queue of `Graph::new` returns to its initial state after two
iterations and the loop never terminates — admission waits on control
references too, so data-acyclicity does not suffice. -/
theorem C8_counterexample :
    DataAcyclic exCyc ∧
    stepN 2 (initState exCyc) = some (initState exCyc) ∧
    (initState exCyc).queue ≠ [] ∧
    runB 50 (initState exCyc) = none :=
  ⟨by decide, by decide, by decide, by decide⟩

/-- C8 (amended): under acyclicity of the FULL reference relation (data and
control edges alike), together with closedness of the name references and
parseability of the port suffixes, `Graph::new` terminates — some iteration
budget makes the work-queue loop drain — and in the built vector every
producer referenced by a data input of a node sits at a strictly smaller
index. -/
theorem C8_amended (defs : List NodeDef) (hcl : ClosedDefs defs)
    (hwf : WFInputs defs) (hac : AcyclicAll defs) :
    ∃ fuel ns dict, runB fuel (initState defs) = some (ns, dict) ∧
      ∀ j bn, ns.get? j = some bn → ∀ x ∈ bn.inputs, x.1 < j := by
  have hinv : BuildInv defs (initState defs) :=
    ⟨fun q hq => hq, fun d hd => Or.inr (List.mem_map_of_mem _ hd)⟩
  obtain ⟨fuel, ns, dict, hrun⟩ :=
    runB_terminates defs hcl hwf hac (initState defs).queue.length (initState defs) hinv rfl
  refine ⟨fuel, ns, dict, hrun, ?_⟩
  intro j bn hj
  exact (runB_ord fuel (initState defs) ns dict (fun p hp => by simp [initState] at hp)
    (fun j bn hj => by simp [initState] at hj) hrun j bn hj).2

/-- C8: witness for the amended statement on the small well-formed input. -/
theorem C8_witness :
    ClosedDefs exOk ∧ WFInputs exOk ∧ AcyclicAll exOk ∧
    (∃ fuel ns dict, runB fuel (initState exOk) = some (ns, dict) ∧
      ∀ j bn, ns.get? j = some bn → ∀ x ∈ bn.inputs, x.1 < j) :=
  ⟨by decide, by decide, by decide, C8_amended exOk (by decide) (by decide) (by decide)⟩

/-- C10: whenever the work-queue loop of `Graph::new` completes, every
control-dependency referent of a built node also sits at a strictly smaller
index — the loop defers a node until its control producers are admitted,
so the spec's ordering invariant in fact extends to control references. -/
theorem C10_confirmed (defs : List NodeDef) (fuel : Nat) (ns : List BNode)
    (dict : List (String × Nat)) (h : runB fuel (initState defs) = some (ns, dict)) :
    ∀ j bn, ns.get? j = some bn → ∀ c ∈ bn.controls, c < j := by
  intro j bn hj
  exact (runB_ord fuel (initState defs) ns dict (fun p hp => by simp [initState] at hp)
    (fun j bn hj => by simp [initState] at hj) h j bn hj).1

/-- C10: witness at the concrete input `exOk`. -/
theorem C10_witness :
    runB 50 (initState exOk) = some (c10res.1, c10res.2) ∧
    ∀ j bn, c10res.1.get? j = some bn → ∀ c ∈ bn.controls, c < j :=
  ⟨rfl, C10_confirmed exOk 50 c10res.1 c10res.2 rfl⟩
